import Mathlib

/-!
DearDiary, `static/js/app.js`.

A shallow embedding of the page script `static/js/app.js` and of the part of
the browser it talks to (the document tree, inline styles, the timer queue,
click listeners), followed by theorems about the flash-message fader and the
smooth-scroll binder.

The document is a forest of node identities in first-child / next-sibling
form; element data (tag, attributes, inline style) lives in a store indexed by
node identity, so that a handle stays usable after its node is detached.
Closures created by the script are represented by the data they capture.
-/

namespace DearDiary

/-! ## Host: elements and the document tree -/

/-- Inline style properties written by the script; the empty string means unset. -/
structure Style where
  opacity : String
  transform : String
deriving DecidableEq

/-- Element data reachable through a DOM handle. -/
structure Element where
  tag : String
  idAttr : Option String
  classes : List String
  href : Option String
  style : Style
deriving DecidableEq

/-- Forest of node identities: `node n children siblings`. -/
inductive Forest where
  | nil : Forest
  | node (n : Nat) (children : Forest) (siblings : Forest) : Forest
deriving DecidableEq

/-- Node identities of a forest in document (pre-) order. -/
def Forest.ids : Forest → List Nat
  | .nil => []
  | .node n c s => n :: (c.ids ++ s.ids)

/-- Detach node `x` together with its subtree. -/
def Forest.remove (x : Nat) : Forest → Forest
  | .nil => .nil
  | .node n c s => if n = x then s.remove x else .node n (c.remove x) (s.remove x)

/-- Node identities of the subtree rooted at `x` (`x` and its descendants). -/
def Forest.subtree (x : Nat) : Forest → List Nat
  | .nil => []
  | .node n c s =>
    if n = x then n :: (c.ids ++ s.subtree x) else c.subtree x ++ s.subtree x

/-- Path from node `x` up to the top of the forest: `x`, its parent, its
grandparent and so on; empty when `x` is not in the forest. -/
def Forest.path (x : Nat) : Forest → List Nat
  | .nil => []
  | .node n c s =>
    if n = x then [n]
    else
      match c.path x with
      | [] => s.path x
      | p :: ps => (p :: ps) ++ [n]

/-- The document: its tree and the element store. -/
structure Dom where
  tree : Forest
  elems : Nat → Element

/-- Whether node `n` is attached to the document. -/
def Dom.contains (d : Dom) (n : Nat) : Prop := n ∈ d.tree.ids

instance (d : Dom) (n : Nat) : Decidable (d.contains n) := by
  unfold Dom.contains; infer_instance

/-- Propagation path of an event dispatched at `n`: the target, then its
ancestors from the parent upwards. Of a target outside the document only the
target itself is known. -/
def Dom.eventPath (d : Dom) (n : Nat) : List Nat :=
  match d.tree.path n with
  | [] => [n]
  | p :: ps => p :: ps

/-- Assignment `el.style.opacity = v`. -/
def Dom.setOpacity (d : Dom) (n : Nat) (v : String) : Dom :=
  let el := d.elems n
  let el1 : Element := { el with style := { el.style with opacity := v } }
  { d with elems := Function.update d.elems n el1 }

/-- Assignment `el.style.transform = v`. -/
def Dom.setTransform (d : Dom) (n : Nat) (v : String) : Dom :=
  let el := d.elems n
  let el1 : Element := { el with style := { el.style with transform := v } }
  { d with elems := Function.update d.elems n el1 }

/-- Method `el.remove()`: detaches the node from its parent; nothing happens when it has none. -/
def Dom.removeNode (d : Dom) (n : Nat) : Dom :=
  { d with tree := d.tree.remove n }

/-- Method `document.querySelectorAll` for a selector with denotation `p`: the static
list of attached nodes matching `p`, in document order. -/
def Dom.selectAll (d : Dom) (p : Dom → Nat → Bool) : List Nat :=
  d.tree.ids.filter (p d)

/-- Denotation of the literal selector `'.flash-message'`. -/
def flashSelector (d : Dom) (n : Nat) : Bool :=
  decide ("flash-message" ∈ (d.elems n).classes)

/-- Whether an attribute value begins with the fragment marker `#`. -/
def startsWithHash (v : String) : Bool :=
  match v.data with
  | c :: _ => c == '#'
  | [] => false

/-- Denotation of the literal selector `'a[href^="#"]'`. -/
def anchorSelector (d : Dom) (n : Nat) : Bool :=
  (d.elems n).tag == "a" &&
    (match (d.elems n).href with
     | some v => startsWithHash v
     | none => false)

/-- Exceptions the host raises in this script. -/
inductive JsError where
  | syntaxError
  | typeError
deriving DecidableEq

/-- Selector engine of the host for selectors given at run time: `none` when the
string is not a well-formed selector, otherwise the selector's denotation. -/
abbrev SelectorEngine := String → Option (Dom → Nat → Bool)

/-- Method `document.querySelector(sel)`: throws `SyntaxError` on a malformed selector,
otherwise returns the first attached match in document order, or `null`. -/
def Dom.querySelector (eng : SelectorEngine) (d : Dom) (sel : String) :
    Except JsError (Option Nat) :=
  match eng sel with
  | none => .error .syntaxError
  | some p => .ok (d.tree.ids.find? (p d))

/-! ## Host: effects, timers, listeners -/

/-- Side-effecting host calls made by the script. -/
inductive Call where
  | setOpacity (n : Nat) (v : String)
  | setTransform (n : Nat) (v : String)
  | remove (n : Nat)
  | preventDefault
  | scrollIntoView (n : Nat) (behavior : String)
deriving DecidableEq

/-- A host call together with the time at which it was made. -/
structure LogEntry where
  time : Nat
  call : Call
deriving DecidableEq

/-- Timer callbacks of the script, as the data their closures capture. -/
inductive Callback where
  /-- The 3000 ms callback; captures `flashMessages`. -/
  | fadeAll (flashMessages : List Nat)
  /-- The 400 ms callback `() => msg.remove()`; captures `msg`. -/
  | removeMsg (msg : Nat)
deriving DecidableEq

/-- A pending timer. -/
structure Timer where
  due : Nat
  cb : Callback
deriving DecidableEq

/-- State of the page as far as the script can observe or change it. -/
structure State where
  /-- Milliseconds since the DOMContentLoaded callback ran. -/
  now : Nat
  dom : Dom
  /-- Pending timers, earliest first; equal due times in creation order. -/
  timers : List Timer
  /-- Elements carrying the click listener of the script, one entry per `addEventListener`. -/
  listeners : List Nat
  /-- Host calls made by the script so far, oldest first. -/
  log : List LogEntry
  /-- Exceptions that escaped a callback and were reported by the host. -/
  uncaught : List JsError

/-- Record a host call at the current time. -/
def State.record (s : State) (c : Call) : State :=
  { s with log := s.log ++ [⟨s.now, c⟩] }

/-- Queue insertion: after every timer that is due no later. -/
def insertTimer (t : Timer) : List Timer → List Timer
  | [] => [t]
  | u :: us => if u.due ≤ t.due then u :: insertTimer t us else t :: u :: us

/-- Host function `setTimeout(cb, delay)`. -/
def State.setTimeout (s : State) (cb : Callback) (delay : Nat) : State :=
  { s with timers := insertTimer ⟨s.now + delay, cb⟩ s.timers }

/-! ## The script -/

/-- Body of `flashMessages.forEach(msg => ...)` for one `msg`. -/
def fadeOne (s : State) (msg : Nat) : State :=
  let s1 := { s with dom := s.dom.setOpacity msg "0" }.record (.setOpacity msg "0")
  let s2 := { s1 with dom := s1.dom.setTransform msg "translateY(-20px)" }.record
    (.setTransform msg "translateY(-20px)")
  s2.setTimeout (.removeMsg msg) 400

/-- Run a timer callback. -/
def runCallback (cb : Callback) (s : State) : State :=
  match cb with
  | .fadeAll flashMessages => flashMessages.foldl fadeOne s
  | .removeMsg msg => { s with dom := s.dom.removeNode msg }.record (.remove msg)

/-- Source line `const flashMessages = document.querySelectorAll('.flash-message')`. -/
def flashMessages (d : Dom) : List Nat := d.selectAll flashSelector

/-- Source expression `document.querySelectorAll('a[href^="#"]')`. -/
def anchors (d : Dom) : List Nat := d.selectAll anchorSelector

/-- The DOMContentLoaded callback. -/
def onDOMContentLoaded (s : State) : State :=
  let fm := flashMessages s.dom
  let s1 := if fm.length > 0 then s.setTimeout (.fadeAll fm) 3000 else s
  (anchors s1.dom).foldl (fun st anchor => { st with listeners := st.listeners ++ [anchor] }) s1

/-- The page at the moment the DOMContentLoaded callback is called. -/
def initial (d : Dom) : State :=
  { now := 0, dom := d, timers := [], listeners := [], log := [], uncaught := [] }

/-- The page right after the DOMContentLoaded callback has run. -/
def boot (d : Dom) : State := onDOMContentLoaded (initial d)

/-- The click event object. -/
structure Event where
  defaultPrevented : Bool
deriving DecidableEq

/-- Outcome of one listener call. -/
structure HandlerResult where
  state : State
  event : Event
  thrown : Option JsError

/-- The string `this.getAttribute('href')` hands to `querySelector`: the attribute
value, or "null" when the attribute is missing. -/
def hrefSelector (d : Dom) (this : Nat) : String :=
  ((d.elems this).href).getD "null"

/-- The click listener `function (e) { ... }` called with `this` bound to the anchor. -/
def anchorClick (eng : SelectorEngine) (this : Nat) (e : Event) (s : State) : HandlerResult :=
  let e1 : Event := { e with defaultPrevented := true }
  let s1 := s.record .preventDefault
  match s1.dom.querySelector eng (hrefSelector s1.dom this) with
  | .error err => ⟨s1, e1, some err⟩
  | .ok none => ⟨s1, e1, some .typeError⟩
  | .ok (some target) => ⟨s1.record (.scrollIntoView target "smooth"), e1, none⟩

/-- Outcome of dispatching a click. -/
structure ClickResult where
  state : State
  defaultPrevented : Bool

/-- Call the listeners registered on the current target `cur`, in registration
order, with `this` bound to `cur`; an exception escaping a listener is reported
and the remaining listeners still run. -/
def runListeners (eng : SelectorEngine) (cur : Nat) :
    List Nat → Event → State → Event × State
  | [], e, s => (e, s)
  | l :: ls, e, s =>
    if l = cur then
      let r := anchorClick eng cur e s
      let s1 := match r.thrown with
        | some err => { r.state with uncaught := r.state.uncaught ++ [err] }
        | none => r.state
      runListeners eng cur ls r.event s1
    else runListeners eng cur ls e s

/-- Dispatch a click along its propagation path. The listeners added by
`addEventListener('click', ...)` are bubbling listeners and the script never
stops propagation: the listeners of the target run first, then those of its
parent, and so on up to the root. -/
def dispatch (eng : SelectorEngine) : List Nat → Event → State → Event × State
  | [], e, s => (e, s)
  | cur :: path, e, s =>
    let r := runListeners eng cur s.listeners e s
    dispatch eng path r.1 r.2

/-- The user activates element `n`. -/
def click (eng : SelectorEngine) (n : Nat) (s : State) : ClickResult :=
  let r := dispatch eng (s.dom.eventPath n) ⟨false⟩ s
  ⟨r.2, r.1.defaultPrevented⟩

/-! ## Time -/

/-- Fuel a callback needs: itself and the timers it can create. -/
def Callback.weight : Callback → Nat
  | .fadeAll l => l.length + 1
  | .removeMsg _ => 1

/-- Fuel that suffices to drain a timer queue. -/
def fuelFor : List Timer → Nat
  | [] => 0
  | t :: ts => t.cb.weight + fuelFor ts

/-- Fire the timers that are due by `target`, earliest first and each at its due
time, then set the clock to `target`. The first argument bounds the number of
callbacks run; `runTimers_drains` shows that the bound `advance` passes is never
reached while a timer is still due. -/
def runTimers : Nat → Nat → State → State
  | 0, target, s => { s with now := target }
  | fuel + 1, target, s =>
    match s.timers with
    | [] => { s with now := target }
    | t :: rest =>
      if t.due ≤ target then
        runTimers fuel target (runCallback t.cb { s with now := t.due, timers := rest })
      else { s with now := target }

/-- Let `ms` milliseconds pass: every timer falling due in that time fires. -/
def advance (ms : Nat) (s : State) : State :=
  runTimers (fuelFor s.timers) (s.now + ms) s

/-- What can happen to the page after startup. -/
inductive Action where
  /-- Time passes. -/
  | wait (ms : Nat)
  /-- The user activates an element. -/
  | click (n : Nat)
  /-- Other code changes the document. -/
  | other (f : Dom → Dom)

/-- Effect of one action. -/
def step (eng : SelectorEngine) (s : State) : Action → State
  | .wait ms => advance ms s
  | .click n => (click eng n s).state
  | .other f => { s with dom := f s.dom }

/-- Effect of a sequence of actions. -/
def run (eng : SelectorEngine) (acts : List Action) (s : State) : State :=
  acts.foldl (step eng) s

/-- The page `t` milliseconds after startup when nothing but the script acts on it. -/
def pageAt (d : Dom) (t : Nat) : State := advance t (boot d)

/-- The faded inline style. -/
def Style.faded (st : Style) : Prop :=
  st.opacity = "0" ∧ st.transform = "translateY(-20px)"

instance (st : Style) : Decidable st.faded := by
  unfold Style.faded; infer_instance

/-! ## Concrete pages -/

/-- Characters accepted in an identifier by `idEngine`. -/
def isIdentChar (c : Char) : Bool :=
  c.isAlphanum || c == '-' || c == '_'

/-- A selector engine for ID selectors `#name` only; every other string is
rejected. Used for concrete pages. -/
def idEngine : SelectorEngine := fun sel =>
  match sel.data with
  | '#' :: c :: cs =>
    if (c :: cs).all isIdentChar && !c.isDigit then
      some (fun d n => (d.elems n).idAttr == some (String.mk (c :: cs)))
    else none
  | _ => none

/-- An element with nothing set. -/
def blank : Element :=
  { tag := "div", idAttr := none, classes := [], href := none, style := ⟨"", ""⟩ }

/-- Two notifications (1, 2), a link to `#section2` (3), the section (4), a link
to `#missing` (5), a link to `#` (6), an external link (7), a body wrapper (0). -/
def demoDom : Dom where
  tree := .node 0
    (.node 1 .nil (.node 2 .nil (.node 3 .nil (.node 4 .nil
      (.node 5 .nil (.node 6 .nil (.node 7 .nil .nil))))))) .nil
  elems := fun n =>
    match n with
    | 0 => { blank with tag := "body" }
    | 1 => { blank with classes := ["flash-message", "success"] }
    | 2 => { blank with classes := ["flash-message"] }
    | 3 => { blank with tag := "a", href := some "#section2" }
    | 4 => { blank with tag := "section", idAttr := some "section2" }
    | 5 => { blank with tag := "a", href := some "#missing" }
    | 6 => { blank with tag := "a", href := some "#" }
    | 7 => { blank with tag := "a", href := some "https://example.org/#top" }
    | _ => blank

/-- A page without notifications: a link (1) to the section (2). -/
def plainDom : Dom where
  tree := .node 0 (.node 1 .nil (.node 2 .nil .nil)) .nil
  elems := fun n =>
    match n with
    | 0 => { blank with tag := "body" }
    | 1 => { blank with tag := "a", href := some "#section2" }
    | 2 => { blank with tag := "section", idAttr := some "section2" }
    | _ => blank

/-- A page with elements inside links: a link to `#section2` (1) holding a span
(2), the section (3), and a second link to `#section2` (4) holding a link to
`#missing` (5), a link to `#` (6) and an external link (7); an external link
(8) next to them; all inside the body (0). -/
def nestedDom : Dom where
  tree := .node 0
    (.node 1 (.node 2 .nil .nil) (.node 3 .nil
      (.node 4 (.node 5 .nil (.node 6 .nil (.node 7 .nil .nil))) (.node 8 .nil .nil)))) .nil
  elems := fun n =>
    match n with
    | 0 => { blank with tag := "body" }
    | 1 => { blank with tag := "a", href := some "#section2" }
    | 2 => { blank with tag := "span" }
    | 3 => { blank with tag := "section", idAttr := some "section2" }
    | 4 => { blank with tag := "a", href := some "#section2" }
    | 5 => { blank with tag := "a", href := some "#missing" }
    | 6 => { blank with tag := "a", href := some "#" }
    | 7 => { blank with tag := "a", href := some "https://example.org/" }
    | 8 => { blank with tag := "a", href := some "https://example.org/" }
    | _ => blank

/-- Sibling list `f` followed by sibling list `g`. -/
def Forest.append : Forest → Forest → Forest
  | .nil, g => g
  | .node k c s, g => .node k c (s.append g)

/-- Attach the new node `n` as last child of `p`. -/
def Forest.appendChild (p n : Nat) : Forest → Forest
  | .nil => .nil
  | .node k c s =>
    if k = p then .node k (c.append (.node n .nil .nil)) s
    else .node k (c.appendChild p n) (s.appendChild p n)

/-- Other code creates a notification element `n` and appends it to `parent`. -/
def addNotification (parent n : Nat) (d : Dom) : Dom :=
  { tree := d.tree.appendChild parent n,
    elems := Function.update d.elems n { blank with classes := ["flash-message"] } }

/-! ## Definitions used in the proofs -/

/-- The queue is ordered by due time. -/
def QueueSorted (ts : List Timer) : Prop :=
  ts.Pairwise (fun a b => a.due ≤ b.due)

/-- Detach a list of nodes one after the other. -/
def removeAll (l : List Nat) (f : Forest) : Forest :=
  l.foldl (fun g m => g.remove m) f

/-- The timers created by the 3000 ms callback for the elements of `l`. -/
def removalTimers (due : Nat) (l : List Nat) : List Timer :=
  l.map (fun m => ⟨due, .removeMsg m⟩)

/-- The page right after the 3000 ms callback has run, nothing else having happened. -/
def afterFade (d : Dom) : State :=
  runCallback (.fadeAll (flashMessages d)) { boot d with now := 3000, timers := [] }

/-- Elements a timer callback acts on. -/
def Callback.targets : Callback → List Nat
  | .fadeAll l => l
  | .removeMsg m => [m]

/-- The element a call of the fader acts on; `none` for the calls of the click listener. -/
def Call.faderTarget : Call → Option Nat
  | .setOpacity n _ => some n
  | .setTransform n _ => some n
  | .remove n => some n
  | .preventDefault => none
  | .scrollIntoView _ _ => none

/-- The log records that both style writes of the fade were made on `m` at time `t`. -/
def FadedAt (log : List LogEntry) (t : Nat) (m : Nat) : Prop :=
  (⟨t, .setOpacity m "0"⟩ : LogEntry) ∈ log ∧
    (⟨t, .setTransform m "translateY(-20px)"⟩ : LogEntry) ∈ log

/-- Call the click listener once for each element of the list, in order,
reporting what escapes. -/
def runHandlers (eng : SelectorEngine) : List Nat → Event → State → Event × State
  | [], e, s => (e, s)
  | a :: rest, e, s =>
    let r := anchorClick eng a e s
    let s1 := match r.thrown with
      | some err => { r.state with uncaught := r.state.uncaught ++ [err] }
      | none => r.state
    runHandlers eng rest r.event s1

/-- The elements whose listener a click on `n` calls, in the order of the calls. -/
def fired (s : State) (n : Nat) : List Nat :=
  (s.dom.eventPath n).flatMap (fun p => s.listeners.filter (fun l => decide (l = p)))

/-- The host calls one call of the listener on `this` makes at time `now`. -/
def handlerCalls (eng : SelectorEngine) (d : Dom) (now : Nat) (this : Nat) : List LogEntry :=
  match d.querySelector eng (hrefSelector d this) with
  | .ok (some target) => [⟨now, .preventDefault⟩, ⟨now, .scrollIntoView target "smooth"⟩]
  | .ok none => [⟨now, .preventDefault⟩]
  | .error _ => [⟨now, .preventDefault⟩]

/-- The exception that escapes one call of the listener on `this`. -/
def handlerError (eng : SelectorEngine) (d : Dom) (this : Nat) : Option JsError :=
  match d.querySelector eng (hrefSelector d this) with
  | .ok (some _) => none
  | .ok none => some .typeError
  | .error err => some err

/-- What holds of every state reached from startup, for the snapshot `S`. -/
structure FaderInv (S : List Nat) (s : State) : Prop where
  timers_sub : ∀ u ∈ s.timers, ∀ m ∈ u.cb.targets, m ∈ S
  log_sub : ∀ e ∈ s.log, ∀ m, e.call.faderTarget = some m → m ∈ S
  pending : ∀ u ∈ s.timers, ∀ m, u.cb = .removeMsg m → ∃ t0, t0 < u.due ∧ FadedAt s.log t0 m
  removed : ∀ e ∈ s.log, ∀ m, e.call = .remove m → ∃ t0, t0 < e.time ∧ FadedAt s.log t0 m

/-! ## Document tree lemmas -/

theorem Forest.mem_ids_remove {x y : Nat} {f : Forest} (h : y ∈ (f.remove x).ids) :
    y ∈ f.ids ∧ y ≠ x := by
  induction f with
  | nil => simp [Forest.remove, Forest.ids] at h
  | node n c s ihc ihs =>
    simp only [Forest.remove] at h
    by_cases hn : n = x
    · rw [if_pos hn] at h
      have := ihs h
      exact ⟨by simp [Forest.ids, this.1], this.2⟩
    · rw [if_neg hn] at h
      simp only [Forest.ids, List.mem_cons, List.mem_append] at h ⊢
      rcases h with h | h | h
      · exact ⟨Or.inl h, by rw [h]; exact hn⟩
      · exact ⟨Or.inr (Or.inl (ihc h).1), (ihc h).2⟩
      · exact ⟨Or.inr (Or.inr (ihs h).1), (ihs h).2⟩

theorem Forest.not_mem_ids_remove (x : Nat) (f : Forest) : x ∉ (f.remove x).ids :=
  fun h => (Forest.mem_ids_remove h).2 rfl

theorem Forest.remove_of_not_mem {x : Nat} {f : Forest} (h : x ∉ f.ids) : f.remove x = f := by
  induction f with
  | nil => rfl
  | node n c s ihc ihs =>
    simp only [Forest.ids, List.mem_cons, List.mem_append, not_or] at h
    have hn : ¬ n = x := fun e => h.1 e.symm
    simp only [Forest.remove, if_neg hn, ihc h.2.1, ihs h.2.2]


theorem mem_ids_removeAll {l : List Nat} {f : Forest} {y : Nat}
    (h : y ∈ (removeAll l f).ids) : y ∈ f.ids ∧ y ∉ l := by
  induction l generalizing f with
  | nil => exact ⟨h, by simp⟩
  | cons m l ih =>
    have h1 := @ih (f.remove m) h
    have h2 := Forest.mem_ids_remove h1.1
    exact ⟨h2.1, by simp [h2.2, h1.2]⟩

/-! ## Field lemmas for the script -/

@[simp] theorem fadeOne_now (s : State) (m : Nat) : (fadeOne s m).now = s.now := rfl
@[simp] theorem fadeOne_tree (s : State) (m : Nat) : (fadeOne s m).dom.tree = s.dom.tree := rfl
@[simp] theorem fadeOne_listeners (s : State) (m : Nat) :
    (fadeOne s m).listeners = s.listeners := rfl
@[simp] theorem fadeOne_uncaught (s : State) (m : Nat) :
    (fadeOne s m).uncaught = s.uncaught := rfl
@[simp] theorem fadeOne_timers (s : State) (m : Nat) :
    (fadeOne s m).timers = insertTimer ⟨s.now + 400, .removeMsg m⟩ s.timers := rfl
@[simp] theorem fadeOne_log (s : State) (m : Nat) :
    (fadeOne s m).log = s.log ++ [⟨s.now, .setOpacity m "0"⟩,
      ⟨s.now, .setTransform m "translateY(-20px)"⟩] := by
  simp [fadeOne, State.record, State.setTimeout]

theorem fadeOne_elems_self (s : State) (m : Nat) :
    ((fadeOne s m).dom.elems m).style = ⟨"0", "translateY(-20px)"⟩ := by
  simp [fadeOne, State.record, State.setTimeout, Dom.setOpacity, Dom.setTransform]

theorem fadeOne_elems_other (s : State) {m n : Nat} (h : n ≠ m) :
    (fadeOne s m).dom.elems n = s.dom.elems n := by
  simp [fadeOne, State.record, State.setTimeout, Dom.setOpacity, Dom.setTransform,
    Function.update_noteq h]

theorem fadeOne_elems_faded (s : State) (m n : Nat) (h : (s.dom.elems n).style.faded) :
    ((fadeOne s m).dom.elems n).style.faded := by
  by_cases e : n = m
  · subst e; rw [fadeOne_elems_self]; exact ⟨rfl, rfl⟩
  · rw [fadeOne_elems_other s e]; exact h

theorem insertTimer_append (t : Timer) (ts : List Timer) (h : ∀ u ∈ ts, u.due ≤ t.due) :
    insertTimer t ts = ts ++ [t] := by
  induction ts with
  | nil => rfl
  | cons u us ih =>
    have hu : u.due ≤ t.due := h u (by simp)
    simp only [insertTimer, if_pos hu, List.cons_append]
    rw [ih (fun v hv => h v (by simp [hv]))]

theorem foldl_fadeOne_now (l : List Nat) (s : State) : (l.foldl fadeOne s).now = s.now := by
  induction l generalizing s with
  | nil => rfl
  | cons m l ih => simp [List.foldl, ih]

theorem foldl_fadeOne_tree (l : List Nat) (s : State) :
    (l.foldl fadeOne s).dom.tree = s.dom.tree := by
  induction l generalizing s with
  | nil => rfl
  | cons m l ih => simp [List.foldl, ih]

theorem foldl_fadeOne_listeners (l : List Nat) (s : State) :
    (l.foldl fadeOne s).listeners = s.listeners := by
  induction l generalizing s with
  | nil => rfl
  | cons m l ih => simp [List.foldl, ih]

theorem foldl_fadeOne_uncaught (l : List Nat) (s : State) :
    (l.foldl fadeOne s).uncaught = s.uncaught := by
  induction l generalizing s with
  | nil => rfl
  | cons m l ih => simp [List.foldl, ih]

theorem foldl_fadeOne_timers (l : List Nat) (s : State)
    (h : ∀ u ∈ s.timers, u.due ≤ s.now + 400) :
    (l.foldl fadeOne s).timers = s.timers ++ removalTimers (s.now + 400) l := by
  induction l generalizing s with
  | nil => simp [removalTimers]
  | cons m l ih =>
    have e : (fadeOne s m).timers = s.timers ++ [⟨s.now + 400, .removeMsg m⟩] := by
      rw [fadeOne_timers]; exact insertTimer_append _ _ h
    simp only [List.foldl]
    rw [ih (fadeOne s m) (by
      intro u hu
      rw [e] at hu
      simp only [List.mem_append, List.mem_singleton] at hu
      rcases hu with hu | hu
      · exact h u hu
      · rw [hu]; exact Nat.le_refl _), e]
    simp [removalTimers]

theorem foldl_fadeOne_elems_other (l : List Nat) (s : State) {n : Nat} (h : n ∉ l) :
    (l.foldl fadeOne s).dom.elems n = s.dom.elems n := by
  induction l generalizing s with
  | nil => rfl
  | cons m l ih =>
    simp only [List.mem_cons, not_or] at h
    simp only [List.foldl]
    rw [ih (fadeOne s m) h.2, fadeOne_elems_other s h.1]

theorem foldl_fadeOne_faded_of_faded (l : List Nat) (s : State) (n : Nat)
    (h : (s.dom.elems n).style.faded) : ((l.foldl fadeOne s).dom.elems n).style.faded := by
  induction l generalizing s with
  | nil => exact h
  | cons m l ih => exact ih (fadeOne s m) (fadeOne_elems_faded s m n h)

theorem foldl_fadeOne_faded (l : List Nat) (s : State) {n : Nat} (h : n ∈ l) :
    ((l.foldl fadeOne s).dom.elems n).style.faded := by
  induction l generalizing s with
  | nil => simp at h
  | cons m l ih =>
    simp only [List.foldl]
    by_cases e : n = m
    · subst e
      apply foldl_fadeOne_faded_of_faded
      rw [fadeOne_elems_self]; exact ⟨rfl, rfl⟩
    · simp only [List.mem_cons] at h
      exact ih (fadeOne s m) (h.resolve_left e)

theorem foldl_fadeOne_log (l : List Nat) (s : State) :
    (l.foldl fadeOne s).log = s.log ++ l.flatMap (fun m =>
      [⟨s.now, .setOpacity m "0"⟩, ⟨s.now, .setTransform m "translateY(-20px)"⟩]) := by
  induction l generalizing s with
  | nil => simp
  | cons m l ih => simp [List.foldl, ih]


/-! ## Startup -/

theorem foldl_listen_listeners (l : List Nat) (s : State) :
    (l.foldl (fun st anchor => { st with listeners := st.listeners ++ [anchor] }) s).listeners
      = s.listeners ++ l := by
  induction l generalizing s with
  | nil => simp
  | cons a l ih => simp [List.foldl, ih]

theorem foldl_listen_rest (l : List Nat) (s : State) :
    let r := l.foldl (fun st anchor => { st with listeners := st.listeners ++ [anchor] }) s
    r.now = s.now ∧ r.dom = s.dom ∧ r.timers = s.timers ∧ r.log = s.log ∧
      r.uncaught = s.uncaught := by
  induction l generalizing s with
  | nil => simp
  | cons a l ih => simpa [List.foldl] using ih _

theorem boot_now (d : Dom) : (boot d).now = 0 := by
  unfold boot onDOMContentLoaded
  rw [(foldl_listen_rest _ _).1]
  split <;> rfl

theorem boot_dom (d : Dom) : (boot d).dom = d := by
  unfold boot onDOMContentLoaded
  rw [(foldl_listen_rest _ _).2.1]
  split <;> rfl

theorem boot_log (d : Dom) : (boot d).log = [] := by
  unfold boot onDOMContentLoaded
  rw [(foldl_listen_rest _ _).2.2.2.1]
  split <;> rfl

theorem boot_uncaught (d : Dom) : (boot d).uncaught = [] := by
  unfold boot onDOMContentLoaded
  rw [(foldl_listen_rest _ _).2.2.2.2]
  split <;> rfl

theorem boot_timers (d : Dom) : (boot d).timers =
    if (flashMessages d).length > 0 then [⟨3000, .fadeAll (flashMessages d)⟩] else [] := by
  unfold boot onDOMContentLoaded
  rw [(foldl_listen_rest _ _).2.2.1]
  simp only [initial]
  split <;> simp [State.setTimeout, insertTimer]

theorem boot_listeners (d : Dom) : (boot d).listeners = anchors d := by
  unfold boot onDOMContentLoaded
  rw [foldl_listen_listeners]
  simp only [initial]
  split <;> simp [State.setTimeout]

/-! ## The timer loop -/

theorem runTimers_idle (fuel target : Nat) (s : State)
    (h : ∀ t ∈ s.timers, target < t.due) : runTimers fuel target s = { s with now := target } := by
  cases fuel with
  | zero => rfl
  | succ k =>
    unfold runTimers
    split
    · rfl
    · rename_i t rest e
      have : ¬ t.due ≤ target := Nat.not_le.mpr (h t (by rw [e]; simp))
      rw [if_neg this]

theorem runTimers_fire (fuel target : Nat) (s : State) (t : Timer) (rest : List Timer)
    (e : s.timers = t :: rest) (h : t.due ≤ target) :
    runTimers (fuel + 1) target s =
      runTimers fuel target (runCallback t.cb { s with now := t.due, timers := rest }) := by
  rw [runTimers]
  simp only [e, if_pos h]

theorem runTimers_removals (l : List Nat) (due target : Nat) (s : State)
    (e : s.timers = removalTimers due l) (h : due ≤ target) :
    let r := runTimers l.length target s
    r.now = target ∧ r.dom.tree = removeAll l s.dom.tree ∧ r.dom.elems = s.dom.elems ∧
    r.timers = [] ∧ r.listeners = s.listeners ∧ r.uncaught = s.uncaught ∧
    r.log = s.log ++ l.map (fun m => ⟨due, .remove m⟩) := by
  induction l generalizing s with
  | nil =>
    simp only [removalTimers, List.map_nil] at e
    simp [runTimers, removeAll, e]
  | cons m l ih =>
    simp only [removalTimers, List.map_cons] at e
    simp only [List.length_cons]
    rw [runTimers_fire l.length target s _ _ e h]
    have := ih (runCallback (.removeMsg m)
      { s with now := due, timers := List.map (fun m => ⟨due, .removeMsg m⟩) l }) rfl
    simpa [runCallback, State.record, Dom.removeNode, removeAll] using this


/-! ## The fader when nothing else touches the page -/

theorem afterFade_now (d : Dom) : (afterFade d).now = 3000 := by
  simp [afterFade, runCallback, foldl_fadeOne_now]

theorem afterFade_tree (d : Dom) : (afterFade d).dom.tree = d.tree := by
  simp [afterFade, runCallback, foldl_fadeOne_tree, boot_dom]

theorem afterFade_timers (d : Dom) :
    (afterFade d).timers = removalTimers 3400 (flashMessages d) := by
  simp only [afterFade, runCallback]
  rw [foldl_fadeOne_timers _ _ (by simp)]
  simp

theorem afterFade_faded (d : Dom) {m : Nat} (h : m ∈ flashMessages d) :
    ((afterFade d).dom.elems m).style.faded := by
  simp only [afterFade, runCallback]
  exact foldl_fadeOne_faded _ _ h

theorem afterFade_elems_other (d : Dom) {n : Nat} (h : n ∉ flashMessages d) :
    (afterFade d).dom.elems n = d.elems n := by
  simp only [afterFade, runCallback]
  rw [foldl_fadeOne_elems_other _ _ h]
  simp [boot_dom]

theorem advance_boot_early (d : Dom) (t : Nat) (h : t < 3000) :
    advance t (boot d) = { boot d with now := t } := by
  unfold advance
  rw [runTimers_idle, boot_now, Nat.zero_add]
  intro u hu
  rw [boot_timers] at hu
  split at hu
  · simp only [List.mem_singleton] at hu
    rw [hu, boot_now]; simpa using h
  · simp at hu

theorem advance_boot_fire (d : Dom) (t : Nat) (hn : 0 < (flashMessages d).length)
    (h : 3000 ≤ t) :
    advance t (boot d) = runTimers (flashMessages d).length t (afterFade d) := by
  have e : (boot d).timers = [⟨3000, .fadeAll (flashMessages d)⟩] := by
    rw [boot_timers, if_pos hn]
  unfold advance
  rw [e]
  simp only [fuelFor, Callback.weight, Nat.add_zero, boot_now, Nat.zero_add]
  rw [runTimers_fire _ _ _ _ _ e h]
  rfl

theorem advance_boot_mid (d : Dom) (t : Nat) (hn : 0 < (flashMessages d).length)
    (h : 3000 ≤ t) (h2 : t < 3400) :
    advance t (boot d) = { afterFade d with now := t } := by
  rw [advance_boot_fire d t hn h, runTimers_idle]
  intro u hu
  rw [afterFade_timers] at hu
  simp only [removalTimers, List.mem_map] at hu
  obtain ⟨m, -, rfl⟩ := hu
  exact h2

theorem advance_boot_late (d : Dom) (t : Nat) (hn : 0 < (flashMessages d).length)
    (h : 3400 ≤ t) :
    let r := advance t (boot d)
    r.now = t ∧ r.dom.tree = removeAll (flashMessages d) d.tree ∧
    r.dom.elems = (afterFade d).dom.elems ∧ r.timers = [] := by
  rw [advance_boot_fire d t hn (by omega)]
  have := runTimers_removals (flashMessages d) 3400 t (afterFade d) (afterFade_timers d) h
  simp only [afterFade_tree] at this
  exact ⟨this.1, this.2.1, this.2.2.1, this.2.2.2.1⟩

/-! ## Invariant of the states reached from startup -/

theorem mem_insertTimer {t u : Timer} {ts : List Timer} :
    u ∈ insertTimer t ts ↔ u = t ∨ u ∈ ts := by
  induction ts with
  | nil => simp [insertTimer]
  | cons v vs ih =>
    simp only [insertTimer]
    split
    · simp only [List.mem_cons, ih]; tauto
    · simp only [List.mem_cons]

theorem FadedAt.mono {log log2 : List LogEntry} {t m : Nat} (h : FadedAt log t m)
    (hsub : ∀ e ∈ log, e ∈ log2) : FadedAt log2 t m :=
  ⟨hsub _ h.1, hsub _ h.2⟩

theorem FaderInv.fadeOne {S : List Nat} {s : State} (h : FaderInv S s) {m : Nat}
    (hm : m ∈ S) : FaderInv S (fadeOne s m) := by
  have hsub : ∀ e ∈ s.log, e ∈ (DearDiary.fadeOne s m).log := by
    intro e he; rw [fadeOne_log]; exact List.mem_append_left _ he
  have hnew : FadedAt (DearDiary.fadeOne s m).log s.now m := by
    constructor <;> rw [fadeOne_log] <;> simp
  refine ⟨?_, ?_, ?_, ?_⟩
  · intro u hu x hx
    rw [fadeOne_timers, mem_insertTimer] at hu
    rcases hu with rfl | hu
    · simp only [Callback.targets, List.mem_singleton] at hx
      rw [hx]; exact hm
    · exact h.timers_sub u hu x hx
  · intro e he x hx
    rw [fadeOne_log] at he
    simp only [List.mem_append, List.mem_cons, List.mem_singleton, List.not_mem_nil,
      or_false] at he
    rcases he with he | rfl | rfl
    · exact h.log_sub e he x hx
    · simp only [Call.faderTarget, Option.some.injEq] at hx; rw [← hx]; exact hm
    · simp only [Call.faderTarget, Option.some.injEq] at hx; rw [← hx]; exact hm
  · intro u hu x hx
    rw [fadeOne_timers, mem_insertTimer] at hu
    rcases hu with rfl | hu
    · simp only [Callback.removeMsg.injEq] at hx
      subst hx
      exact ⟨s.now, by simp, hnew⟩
    · obtain ⟨t0, h0, hf⟩ := h.pending u hu x hx
      exact ⟨t0, h0, hf.mono hsub⟩
  · intro e he x hx
    rw [fadeOne_log] at he
    simp only [List.mem_append, List.mem_cons, List.mem_singleton, List.not_mem_nil,
      or_false] at he
    rcases he with he | rfl | rfl
    · obtain ⟨t0, h0, hf⟩ := h.removed e he x hx
      exact ⟨t0, h0, hf.mono hsub⟩
    · simp at hx
    · simp at hx

theorem FaderInv.foldl_fadeOne {S : List Nat} (l : List Nat) {s : State} (h : FaderInv S s)
    (hl : ∀ m ∈ l, m ∈ S) : FaderInv S (l.foldl DearDiary.fadeOne s) := by
  induction l generalizing s with
  | nil => exact h
  | cons m l ih =>
    exact ih (h.fadeOne (hl m (by simp))) (fun x hx => hl x (by simp [hx]))

/-- Firing the timer at the head of the queue keeps the invariant. -/
theorem FaderInv.fire {S : List Nat} {s : State} (h : FaderInv S s) {t : Timer}
    {rest : List Timer} (e : s.timers = t :: rest) :
    FaderInv S (runCallback t.cb { s with now := t.due, timers := rest }) := by
  have hrest : FaderInv S { s with now := t.due, timers := rest } :=
    ⟨fun u hu => h.timers_sub u (by rw [e]; exact List.mem_cons_of_mem _ hu), h.log_sub,
     fun u hu => h.pending u (by rw [e]; exact List.mem_cons_of_mem _ hu), h.removed⟩
  have ht : t ∈ s.timers := by rw [e]; simp
  cases hcb : t.cb with
  | fadeAll l =>
    simp only [runCallback]
    exact hrest.foldl_fadeOne l (fun m hm => h.timers_sub t ht m (by rw [hcb]; exact hm))
  | removeMsg m =>
    simp only [runCallback, State.record, Dom.removeNode]
    obtain ⟨t0, h0, hf⟩ := h.pending t ht m hcb
    have hsub : ∀ x ∈ s.log, x ∈ s.log ++ [(⟨t.due, .remove m⟩ : LogEntry)] :=
      fun x hx => List.mem_append_left _ hx
    refine ⟨hrest.timers_sub, ?_, ?_, ?_⟩
    · intro x hx y hy
      simp only [List.mem_append, List.mem_singleton] at hx
      rcases hx with hx | rfl
      · exact h.log_sub x hx y hy
      · simp only [Call.faderTarget, Option.some.injEq] at hy
        rw [← hy]; exact h.timers_sub t ht m (by rw [hcb]; simp [Callback.targets])
    · intro u hu y hy
      obtain ⟨t1, h1, hf1⟩ := hrest.pending u hu y hy
      exact ⟨t1, h1, hf1.mono hsub⟩
    · intro x hx y hy
      simp only [List.mem_append, List.mem_singleton] at hx
      rcases hx with hx | rfl
      · obtain ⟨t1, h1, hf1⟩ := h.removed x hx y hy
        exact ⟨t1, h1, hf1.mono hsub⟩
      · simp only [Call.remove.injEq] at hy
        subst hy
        exact ⟨t0, h0, hf.mono hsub⟩

theorem FaderInv.runTimers {S : List Nat} (fuel target : Nat) {s : State} (h : FaderInv S s) :
    FaderInv S (runTimers fuel target s) := by
  induction fuel generalizing s with
  | zero => exact ⟨h.timers_sub, h.log_sub, h.pending, h.removed⟩
  | succ k ih =>
    rw [DearDiary.runTimers]
    split
    · exact ⟨h.timers_sub, h.log_sub, h.pending, h.removed⟩
    · rename_i t rest e
      split
      · exact ih (h.fire e)
      · exact ⟨h.timers_sub, h.log_sub, h.pending, h.removed⟩

theorem FaderInv.advance {S : List Nat} (ms : Nat) {s : State} (h : FaderInv S s) :
    FaderInv S (advance ms s) :=
  h.runTimers _ _

/-! ## Clicks -/

/-- What one call of the click listener does, by the outcome of the lookup. -/
theorem anchorClick_spec (eng : SelectorEngine) (this : Nat) (e : Event) (s : State) :
    let r := anchorClick eng this e s
    r.event.defaultPrevented = true ∧ r.state.now = s.now ∧ r.state.dom = s.dom ∧
    r.state.timers = s.timers ∧ r.state.listeners = s.listeners ∧
    r.state.uncaught = s.uncaught ∧
    (match s.dom.querySelector eng (hrefSelector s.dom this) with
     | .error err => r.thrown = some err ∧ r.state.log = s.log ++ [⟨s.now, .preventDefault⟩]
     | .ok none => r.thrown = some .typeError ∧
         r.state.log = s.log ++ [⟨s.now, .preventDefault⟩]
     | .ok (some target) => r.thrown = none ∧
         r.state.log = s.log ++ [⟨s.now, .preventDefault⟩, ⟨s.now, .scrollIntoView target "smooth"⟩]) := by
  simp only [anchorClick, State.record]
  cases h : s.dom.querySelector eng (hrefSelector s.dom this) with
  | error err => simp
  | ok o =>
    cases o with
    | none => simp
    | some target => simp

/-- One call of the listener in terms of `handlerCalls` and `handlerError`. -/
theorem anchorClick_calls (eng : SelectorEngine) (this : Nat) (e : Event) (s : State) :
    (anchorClick eng this e s).thrown = handlerError eng s.dom this ∧
    (anchorClick eng this e s).state.log = s.log ++ handlerCalls eng s.dom s.now this := by
  have h := anchorClick_spec eng this e s
  simp only at h
  obtain ⟨-, -, -, -, -, -, hlog⟩ := h
  unfold handlerError handlerCalls
  cases hq : s.dom.querySelector eng (hrefSelector s.dom this) with
  | error err => rw [hq] at hlog; exact hlog
  | ok o =>
    cases o with
    | none => rw [hq] at hlog; exact hlog
    | some target => rw [hq] at hlog; exact hlog

theorem runListeners_eq (eng : SelectorEngine) (cur : Nat) (ls : List Nat) (e : Event)
    (s : State) :
    runListeners eng cur ls e s =
      runHandlers eng (ls.filter (fun l => decide (l = cur))) e s := by
  induction ls generalizing e s with
  | nil => rfl
  | cons l ls ih =>
    by_cases hl : l = cur
    · subst hl
      simp only [runListeners, if_true, List.filter_cons, decide_True, runHandlers]
      exact ih _ _
    · simp only [runListeners, if_neg hl, List.filter_cons, decide_eq_false hl]
      exact ih e s

theorem runHandlers_append (eng : SelectorEngine) (l1 l2 : List Nat) (e : Event) (s : State) :
    runHandlers eng (l1 ++ l2) e s =
      runHandlers eng l2 (runHandlers eng l1 e s).1 (runHandlers eng l1 e s).2 := by
  induction l1 generalizing e s with
  | nil => rfl
  | cons a l1 ih => simp only [List.cons_append, runHandlers]; exact ih _ _

/-- Closed form of a sequence of listener calls. -/
theorem runHandlers_spec (eng : SelectorEngine) (l : List Nat) (e : Event) (s : State) :
    (runHandlers eng l e s).2.now = s.now ∧ (runHandlers eng l e s).2.dom = s.dom ∧
    (runHandlers eng l e s).2.timers = s.timers ∧
    (runHandlers eng l e s).2.listeners = s.listeners ∧
    (runHandlers eng l e s).2.log = s.log ++ l.flatMap (handlerCalls eng s.dom s.now) ∧
    (runHandlers eng l e s).2.uncaught = s.uncaught ++ l.filterMap (handlerError eng s.dom) ∧
    (runHandlers eng l e s).1.defaultPrevented = (e.defaultPrevented || !l.isEmpty) := by
  induction l generalizing e s with
  | nil => simp [runHandlers]
  | cons a l ih =>
    have hs := anchorClick_spec eng a e s
    simp only at hs
    obtain ⟨hp, hnow, hdom, htim, hlis, hunc, -⟩ := hs
    have hc := anchorClick_calls eng a e s
    have key : ∀ s1 : State, s1.now = s.now → s1.dom = s.dom → s1.timers = s.timers →
        s1.listeners = s.listeners →
        s1.log = s.log ++ handlerCalls eng s.dom s.now a →
        s1.uncaught = s.uncaught ++ (handlerError eng s.dom a).toList →
        (runHandlers eng l (anchorClick eng a e s).event s1).2.now = s.now ∧
        (runHandlers eng l (anchorClick eng a e s).event s1).2.dom = s.dom ∧
        (runHandlers eng l (anchorClick eng a e s).event s1).2.timers = s.timers ∧
        (runHandlers eng l (anchorClick eng a e s).event s1).2.listeners = s.listeners ∧
        (runHandlers eng l (anchorClick eng a e s).event s1).2.log
          = s.log ++ (a :: l).flatMap (handlerCalls eng s.dom s.now) ∧
        (runHandlers eng l (anchorClick eng a e s).event s1).2.uncaught
          = s.uncaught ++ (a :: l).filterMap (handlerError eng s.dom) ∧
        (runHandlers eng l (anchorClick eng a e s).event s1).1.defaultPrevented
          = (e.defaultPrevented || !(a :: l).isEmpty) := by
      intro s1 h1 h2 h3 h4 h5 h6
      obtain ⟨a1, a2, a3, a4, a5, a6, a7⟩ := ih (anchorClick eng a e s).event s1
      refine ⟨a1.trans h1, a2.trans h2, a3.trans h3, a4.trans h4, ?_, ?_, ?_⟩
      · rw [a5, h5, h2, h1]; simp
      · rw [a6, h6, h2]
        cases he : handlerError eng s.dom a <;> simp [List.filterMap_cons, he]
      · rw [a7, hp]; simp
    simp only [runHandlers]
    cases ht : (anchorClick eng a e s).thrown with
    | none =>
      refine key _ hnow hdom htim hlis hc.2 ?_
      rw [← hc.1, ht]; simpa using hunc
    | some err =>
      refine key _ hnow hdom htim hlis hc.2 ?_
      rw [← hc.1, ht]
      show (anchorClick eng a e s).state.uncaught ++ [err] = _
      rw [hunc]; rfl

theorem dispatch_eq (eng : SelectorEngine) (path : List Nat) (e : Event) (s : State) :
    dispatch eng path e s =
      runHandlers eng
        (path.flatMap (fun p => s.listeners.filter (fun l => decide (l = p)))) e s := by
  induction path generalizing e s with
  | nil => rfl
  | cons cur path ih =>
    simp only [dispatch, List.flatMap_cons]
    rw [runHandlers_append, runListeners_eq, ih]
    rw [(runHandlers_spec eng _ e s).2.2.2.1]

/-- Closed form of a click. -/
theorem click_spec (eng : SelectorEngine) (n : Nat) (s : State) :
    (click eng n s).state.now = s.now ∧ (click eng n s).state.dom = s.dom ∧
    (click eng n s).state.timers = s.timers ∧
    (click eng n s).state.listeners = s.listeners ∧
    (click eng n s).state.log = s.log ++ (fired s n).flatMap (handlerCalls eng s.dom s.now) ∧
    (click eng n s).state.uncaught
      = s.uncaught ++ (fired s n).filterMap (handlerError eng s.dom) ∧
    (click eng n s).defaultPrevented = !(fired s n).isEmpty := by
  unfold click fired
  simp only
  rw [dispatch_eq]
  have h := runHandlers_spec eng
    ((s.dom.eventPath n).flatMap (fun p => s.listeners.filter (fun l => decide (l = p))))
    ⟨false⟩ s
  refine ⟨h.1, h.2.1, h.2.2.1, h.2.2.2.1, h.2.2.2.2.1, h.2.2.2.2.2.1, ?_⟩
  rw [h.2.2.2.2.2.2]; simp

theorem handlerCalls_kind (eng : SelectorEngine) (d : Dom) (now this : Nat) :
    ∀ x ∈ handlerCalls eng d now this,
      x.call = .preventDefault ∨ ∃ t b, x.call = .scrollIntoView t b := by
  intro x hx
  unfold handlerCalls at hx
  split at hx
  · simp only [List.mem_cons, List.mem_singleton, List.not_mem_nil, or_false] at hx
    rcases hx with rfl | rfl
    · exact Or.inl rfl
    · exact Or.inr ⟨_, _, rfl⟩
  · simp only [List.mem_singleton] at hx
    rw [hx]; exact Or.inl rfl
  · simp only [List.mem_singleton] at hx
    rw [hx]; exact Or.inl rfl

/-- Fields a click never changes, and what it may add to the log. -/
theorem click_frame (eng : SelectorEngine) (n : Nat) (s : State) :
    (click eng n s).state.now = s.now ∧ (click eng n s).state.dom = s.dom ∧
    (click eng n s).state.timers = s.timers ∧
    (click eng n s).state.listeners = s.listeners ∧
    ∃ extra : List LogEntry, (click eng n s).state.log = s.log ++ extra ∧
      ∀ x ∈ extra, x.call = .preventDefault ∨ ∃ t b, x.call = .scrollIntoView t b := by
  have h := click_spec eng n s
  refine ⟨h.1, h.2.1, h.2.2.1, h.2.2.2.1, _, h.2.2.2.2.1, ?_⟩
  intro x hx
  rw [List.mem_flatMap] at hx
  obtain ⟨a, -, hxa⟩ := hx
  exact handlerCalls_kind eng s.dom s.now a x hxa

theorem FaderInv.click {S : List Nat} (eng : SelectorEngine) (n : Nat) {s : State}
    (h : FaderInv S s) : FaderInv S (click eng n s).state := by
  obtain ⟨-, -, htim, -, extra, hlog, hex⟩ := click_frame eng n s
  have hsub : ∀ x ∈ s.log, x ∈ (DearDiary.click eng n s).state.log := by
    intro x hx
    rw [hlog]; exact List.mem_append_left _ hx
  have hnew : ∀ x ∈ (DearDiary.click eng n s).state.log, x ∈ s.log ∨
      (x.call = .preventDefault ∨ ∃ t b, x.call = .scrollIntoView t b) := by
    intro x hx
    rw [hlog, List.mem_append] at hx
    exact hx.imp id (hex x)
  refine ⟨?_, ?_, ?_, ?_⟩
  · rw [htim]; exact h.timers_sub
  · intro x hx m hm
    rcases hnew x hx with hx | hx | ⟨t, b, hx⟩
    · exact h.log_sub x hx m hm
    · rw [hx] at hm; simp [Call.faderTarget] at hm
    · rw [hx] at hm; simp [Call.faderTarget] at hm
  · rw [htim]
    intro u hu m hm
    obtain ⟨t0, h0, hf0⟩ := h.pending u hu m hm
    exact ⟨t0, h0, hf0.mono hsub⟩
  · intro x hx m hm
    rcases hnew x hx with hx | hx | ⟨t, b, hx⟩
    · obtain ⟨t0, h0, hf0⟩ := h.removed x hx m hm
      exact ⟨t0, h0, hf0.mono hsub⟩
    · rw [hx] at hm; simp at hm
    · rw [hx] at hm; simp at hm

theorem FaderInv.step {S : List Nat} (eng : SelectorEngine) (a : Action) {s : State}
    (h : FaderInv S s) : FaderInv S (step eng s a) := by
  cases a with
  | wait ms => exact h.advance ms
  | click n => exact h.click eng n
  | other f => exact ⟨h.timers_sub, h.log_sub, h.pending, h.removed⟩

theorem FaderInv.run {S : List Nat} (eng : SelectorEngine) (acts : List Action) {s : State}
    (h : FaderInv S s) : FaderInv S (run eng acts s) := by
  induction acts generalizing s with
  | nil => exact h
  | cons a acts ih => exact ih (h.step eng a)

theorem FaderInv.boot (d : Dom) : FaderInv (flashMessages d) (boot d) := by
  refine ⟨?_, ?_, ?_, ?_⟩
  · intro u hu m hm
    rw [boot_timers] at hu
    split at hu
    · simp only [List.mem_singleton] at hu
      rw [hu] at hm; exact hm
    · simp at hu
  · intro e he; rw [boot_log] at he; simp at he
  · intro u hu m hm
    rw [boot_timers] at hu
    split at hu
    · simp only [List.mem_singleton] at hu
      rw [hu] at hm; simp at hm
    · simp at hu
  · intro e he; rw [boot_log] at he; simp at he

/-! ## What timers leave alone -/

theorem Forest.subtree_remove_sub {x y z : Nat} {f : Forest}
    (h : z ∈ (f.remove y).subtree x) : z ∈ f.subtree x := by
  induction f with
  | nil => simp [Forest.remove, Forest.subtree] at h
  | node n c s ihc ihs =>
    by_cases hy : n = y
    · simp only [Forest.remove, if_pos hy] at h
      have := ihs h
      simp only [Forest.subtree]
      split
      · simp [this]
      · simp [this]
    · simp only [Forest.remove, if_neg hy, Forest.subtree] at h
      simp only [Forest.subtree]
      by_cases hx : n = x
      · rw [if_pos hx] at h ⊢
        simp only [List.mem_cons, List.mem_append] at h ⊢
        rcases h with h | h | h
        · exact Or.inl h
        · exact Or.inr (Or.inl (Forest.mem_ids_remove h).1)
        · exact Or.inr (Or.inr (ihs h))
      · rw [if_neg hx] at h ⊢
        simp only [List.mem_append] at h ⊢
        exact h.imp ihc ihs

theorem Forest.mem_ids_remove_of_mem {x y : Nat} {f : Forest} (hy : y ∈ f.ids)
    (hx : y ∉ f.subtree x) : y ∈ (f.remove x).ids := by
  induction f with
  | nil => simp [Forest.ids] at hy
  | node n c s ihc ihs =>
    simp only [Forest.ids, List.mem_cons, List.mem_append] at hy
    by_cases hn : n = x
    · simp only [Forest.subtree, if_pos hn, List.mem_cons, List.mem_append, not_or] at hx
      simp only [Forest.remove, if_pos hn]
      rcases hy with hy | hy | hy
      · exact absurd hy hx.1
      · exact absurd hy hx.2.1
      · exact ihs hy hx.2.2
    · simp only [Forest.subtree, if_neg hn, List.mem_append, not_or] at hx
      simp only [Forest.remove, if_neg hn, Forest.ids, List.mem_cons, List.mem_append]
      rcases hy with hy | hy | hy
      · exact Or.inl hy
      · exact Or.inr (Or.inl (ihc hy hx.1))
      · exact Or.inr (Or.inr (ihs hy hx.2))

theorem Forest.subtree_sub_ids {x z : Nat} {f : Forest} (h : z ∈ f.subtree x) : z ∈ f.ids := by
  induction f with
  | nil => simp [Forest.subtree] at h
  | node n c s ihc ihs =>
    simp only [Forest.subtree] at h
    simp only [Forest.ids, List.mem_cons, List.mem_append]
    split at h
    · simp only [List.mem_cons, List.mem_append] at h
      rcases h with h | h | h
      · exact Or.inl h
      · exact Or.inr (Or.inl h)
      · exact Or.inr (Or.inr (ihs h))
    · simp only [List.mem_append] at h
      exact Or.inr (h.imp ihc ihs)

theorem runCallback_elems (cb : Callback) (s : State) {n : Nat} (h : n ∉ cb.targets) :
    (runCallback cb s).dom.elems n = s.dom.elems n := by
  cases cb with
  | fadeAll l => exact foldl_fadeOne_elems_other l s h
  | removeMsg m => rfl

/-- Outside the subtrees of its targets a callback detaches nothing. -/
theorem runCallback_keeps (cb : Callback) (s : State) {n : Nat}
    (hn : n ∈ s.dom.tree.ids) (h : ∀ m ∈ cb.targets, n ∉ s.dom.tree.subtree m) :
    n ∈ (runCallback cb s).dom.tree.ids := by
  cases cb with
  | fadeAll l => simp only [runCallback]; rw [foldl_fadeOne_tree]; exact hn
  | removeMsg m =>
    exact Forest.mem_ids_remove_of_mem hn (h m (by simp [Callback.targets]))

theorem runCallback_subtree_sub (cb : Callback) (s : State) {n m : Nat}
    (h : n ∈ (runCallback cb s).dom.tree.subtree m) : n ∈ s.dom.tree.subtree m := by
  cases cb with
  | fadeAll l => simp only [runCallback] at h; rw [foldl_fadeOne_tree] at h; exact h
  | removeMsg x => exact Forest.subtree_remove_sub h

theorem runTimers_frame {S : List Nat} (fuel target : Nat) {s : State} (h : FaderInv S s)
    {n : Nat} (hn : n ∉ S) :
    (runTimers fuel target s).dom.elems n = s.dom.elems n ∧
    ((∀ m ∈ S, n ∉ s.dom.tree.subtree m) → n ∈ s.dom.tree.ids →
      n ∈ (runTimers fuel target s).dom.tree.ids) := by
  induction fuel generalizing s with
  | zero => exact ⟨rfl, fun _ h2 => h2⟩
  | succ k ih =>
    rw [runTimers]
    split
    · exact ⟨rfl, fun _ h2 => h2⟩
    · rename_i t rest e
      split
      · have ht : ∀ m ∈ t.cb.targets, m ∈ S :=
          h.timers_sub t (by rw [e]; simp)
        have hi := ih (h.fire e)
        have he : (runCallback t.cb { s with now := t.due, timers := rest }).dom.elems n
            = s.dom.elems n :=
          runCallback_elems t.cb _ (fun hx => hn (ht n hx))
        refine ⟨hi.1.trans he, fun h1 h2 => hi.2 ?_ ?_⟩
        · intro m hm hx
          exact h1 m hm
            (runCallback_subtree_sub t.cb { s with now := t.due, timers := rest } hx)
        · exact runCallback_keeps t.cb { s with now := t.due, timers := rest } h2
            (fun m hm => h1 m (ht m hm))
      · exact ⟨rfl, fun _ h2 => h2⟩

/-! ## Listeners are bound once -/

theorem runCallback_listeners (cb : Callback) (s : State) :
    (runCallback cb s).listeners = s.listeners := by
  cases cb with
  | fadeAll l => exact foldl_fadeOne_listeners l s
  | removeMsg m => rfl

theorem runTimers_listeners (fuel target : Nat) (s : State) :
    (runTimers fuel target s).listeners = s.listeners := by
  induction fuel generalizing s with
  | zero => rfl
  | succ k ih =>
    rw [runTimers]
    split
    · rfl
    · split
      · rw [ih, runCallback_listeners]
      · rfl

theorem step_listeners (eng : SelectorEngine) (a : Action) (s : State) :
    (step eng s a).listeners = s.listeners := by
  cases a with
  | wait ms => exact runTimers_listeners _ _ s
  | click n => exact (click_frame eng n s).2.2.2.1
  | other f => rfl

theorem run_listeners (eng : SelectorEngine) (acts : List Action) (s : State) :
    (run eng acts s).listeners = s.listeners := by
  induction acts generalizing s with
  | nil => rfl
  | cons a acts ih =>
    show (run eng acts (step eng s a)).listeners = s.listeners
    rw [ih, step_listeners]

/-! ## The timer loop never runs out of fuel -/

theorem insertTimer_sorted (t : Timer) {ts : List Timer} (h : QueueSorted ts) :
    QueueSorted (insertTimer t ts) := by
  induction ts with
  | nil => simp [insertTimer, QueueSorted]
  | cons u us ih =>
    unfold QueueSorted at h ih ⊢
    rw [List.pairwise_cons] at h
    simp only [insertTimer]
    split
    · rename_i hle
      rw [List.pairwise_cons]
      refine ⟨?_, ih h.2⟩
      intro v hv
      rcases mem_insertTimer.mp hv with rfl | hv
      · exact hle
      · exact h.1 v hv
    · rename_i hgt
      rw [List.pairwise_cons, List.pairwise_cons]
      refine ⟨?_, h⟩
      intro v hv
      simp only [List.mem_cons] at hv
      rcases hv with rfl | hv
      · omega
      · have := h.1 v hv; omega

theorem fuelFor_insertTimer (t : Timer) (ts : List Timer) :
    fuelFor (insertTimer t ts) = t.cb.weight + fuelFor ts := by
  induction ts with
  | nil => rfl
  | cons u us ih =>
    simp only [insertTimer]
    split
    · simp only [fuelFor, ih]; omega
    · simp only [fuelFor]

theorem foldl_fadeOne_queue (l : List Nat) (s : State) (h : QueueSorted s.timers) :
    QueueSorted (l.foldl fadeOne s).timers ∧
      fuelFor (l.foldl fadeOne s).timers = fuelFor s.timers + l.length := by
  induction l generalizing s with
  | nil => exact ⟨h, rfl⟩
  | cons m l ih =>
    have h1 : QueueSorted (fadeOne s m).timers := by
      rw [fadeOne_timers]; exact insertTimer_sorted _ h
    have := ih (fadeOne s m) h1
    refine ⟨this.1, ?_⟩
    simp only [List.foldl, this.2, fadeOne_timers, fuelFor_insertTimer, Callback.weight,
      List.length_cons]
    omega

theorem runCallback_queue (cb : Callback) (s : State) (h : QueueSorted s.timers) :
    QueueSorted (runCallback cb s).timers ∧
      fuelFor (runCallback cb s).timers + 1 = fuelFor s.timers + cb.weight := by
  cases cb with
  | fadeAll l =>
    have := foldl_fadeOne_queue l s h
    exact ⟨this.1, by simp only [runCallback, this.2, Callback.weight]; omega⟩
  | removeMsg m => exact ⟨h, rfl⟩

theorem runTimers_queue (fuel target : Nat) (s : State) (h : QueueSorted s.timers) :
    QueueSorted (runTimers fuel target s).timers := by
  induction fuel generalizing s with
  | zero => exact h
  | succ k ih =>
    rw [runTimers]
    split
    · exact h
    · rename_i t rest e
      split
      · apply ih
        apply (runCallback_queue t.cb _ _).1
        unfold QueueSorted at h ⊢
        rw [e, List.pairwise_cons] at h
        exact h.2
      · exact h

/-- With the fuel `advance` supplies, the loop stops only when no timer is due. -/
theorem runTimers_drains (fuel target : Nat) (s : State) (h : QueueSorted s.timers)
    (hf : fuelFor s.timers ≤ fuel) :
    ∀ u ∈ (runTimers fuel target s).timers, target < u.due := by
  induction fuel generalizing s with
  | zero =>
    intro u hu
    have hu2 : u ∈ s.timers := hu
    cases hs : s.timers with
    | nil => rw [hs] at hu2; simp at hu2
    | cons t ts =>
      rw [hs] at hf
      cases hcb : t.cb <;> simp [fuelFor, Callback.weight, hcb] at hf
  | succ k ih =>
    rw [runTimers]
    split
    · intro u hu
      rename_i e
      have hu2 : u ∈ s.timers := hu
      rw [e] at hu2; simp at hu2
    · rename_i t rest e
      have hs : QueueSorted (t :: rest) := by rw [← e]; exact h
      unfold QueueSorted at hs
      rw [List.pairwise_cons] at hs
      split
      · have hq := runCallback_queue t.cb { s with now := t.due, timers := rest } hs.2
        apply ih _ hq.1
        rw [e] at hf
        simp only [fuelFor] at hf
        have := hq.2
        simp only at this
        omega
      · rename_i hnd
        intro u hu
        have hu2 : u ∈ s.timers := hu
        rw [e, List.mem_cons] at hu2
        rcases hu2 with rfl | hu2
        · omega
        · have := hs.1 u hu2; omega

theorem step_queue (eng : SelectorEngine) (a : Action) (s : State)
    (h : QueueSorted s.timers) : QueueSorted (step eng s a).timers := by
  cases a with
  | wait ms => exact runTimers_queue _ _ s h
  | click n =>
    show QueueSorted (click eng n s).state.timers
    rw [(click_frame eng n s).2.2.1]; exact h
  | other f => exact h

theorem run_queue (eng : SelectorEngine) (acts : List Action) (s : State)
    (h : QueueSorted s.timers) : QueueSorted (run eng acts s).timers := by
  induction acts generalizing s with
  | nil => exact h
  | cons a acts ih => exact ih _ (step_queue eng a s h)

theorem boot_queue (d : Dom) : QueueSorted (boot d).timers := by
  rw [boot_timers]
  split <;> simp [QueueSorted]

/-- In every state reached from startup, letting time pass fires every timer
that falls due: none that is due remains pending afterwards. -/
theorem advance_drains (eng : SelectorEngine) (d : Dom) (acts : List Action) (ms : Nat) :
    ∀ u ∈ (advance ms (run eng acts (boot d))).timers,
      (run eng acts (boot d)).now + ms < u.due :=
  runTimers_drains _ _ _ (run_queue eng acts _ (boot_queue d)) (Nat.le_refl _)

/-! ## Time passing in several steps -/

theorem runTimers_now_irrelevant (fuel target x : Nat) (s : State) :
    runTimers fuel target { s with now := x } = runTimers fuel target s := by
  cases fuel with
  | zero => rfl
  | succ k =>
    rw [runTimers, runTimers]

theorem fuelFor_eq_zero {ts : List Timer} (h : fuelFor ts = 0) : ts = [] := by
  cases ts with
  | nil => rfl
  | cons t ts => cases hcb : t.cb <;> simp [fuelFor, Callback.weight, hcb] at h

theorem runTimers_nil (fuel target : Nat) (s : State) (h : s.timers = []) :
    runTimers fuel target s = { s with now := target } :=
  runTimers_idle fuel target s (by rw [h]; simp)

theorem weight_pos (cb : Callback) : 0 < cb.weight := by
  cases cb <;> simp [Callback.weight]

/-- Any sufficient amount of fuel gives the same result. -/
theorem runTimers_fuel (f1 f2 target : Nat) (s : State) (hs : QueueSorted s.timers)
    (h1 : fuelFor s.timers ≤ f1) (h2 : fuelFor s.timers ≤ f2) :
    runTimers f1 target s = runTimers f2 target s := by
  induction f1 generalizing f2 s with
  | zero =>
    have := fuelFor_eq_zero (Nat.le_zero.mp h1)
    rw [runTimers_nil _ _ _ this, runTimers_nil _ _ _ this]
  | succ k ih =>
    cases e : s.timers with
    | nil => rw [runTimers_nil _ _ _ e, runTimers_nil _ _ _ e]
    | cons t rest =>
      have hsr : QueueSorted rest := by
        unfold QueueSorted at hs ⊢
        rw [e, List.pairwise_cons] at hs; exact hs.2
      rw [e] at h1 h2
      simp only [fuelFor] at h1 h2
      have hw := weight_pos t.cb
      obtain ⟨j, rfl⟩ : ∃ j, f2 = j + 1 := ⟨f2 - 1, by omega⟩
      by_cases hd : t.due ≤ target
      · rw [runTimers_fire k target s t rest e hd, runTimers_fire j target s t rest e hd]
        have hq := runCallback_queue t.cb { s with now := t.due, timers := rest } hsr
        have h3 := hq.2
        simp only at h3
        exact ih j _ hq.1 (by omega) (by omega)
      · have hi : ∀ u ∈ s.timers, target < u.due := by
          intro u hu
          have hs2 : QueueSorted (t :: rest) := by rw [← e]; exact hs
          unfold QueueSorted at hs2
          rw [List.pairwise_cons] at hs2
          rw [e, List.mem_cons] at hu
          rcases hu with rfl | hu
          · omega
          · have := hs2.1 u hu; omega
        rw [runTimers_idle _ _ _ hi, runTimers_idle _ _ _ hi]

theorem runTimers_now (fuel target : Nat) (s : State) :
    (runTimers fuel target s).now = target := by
  induction fuel generalizing s with
  | zero => rfl
  | succ k ih =>
    rw [runTimers]
    split
    · rfl
    · split
      · exact ih _
      · rfl

theorem runTimers_then (f1 f2 f3 t1 t2 : Nat) (s : State) (hs : QueueSorted s.timers)
    (ht : t1 ≤ t2) (h1 : fuelFor s.timers ≤ f1) (h3 : fuelFor s.timers ≤ f3)
    (h2 : fuelFor (runTimers f1 t1 s).timers ≤ f2) :
    runTimers f2 t2 (runTimers f1 t1 s) = runTimers f3 t2 s := by
  induction f1 generalizing f2 f3 s with
  | zero =>
    have := fuelFor_eq_zero (Nat.le_zero.mp h1)
    rw [runTimers_nil 0 t1 s this, runTimers_now_irrelevant,
      runTimers_nil _ _ _ this, runTimers_nil _ _ _ this]
  | succ k ih =>
    cases e : s.timers with
    | nil =>
      rw [runTimers_nil _ t1 s e, runTimers_now_irrelevant,
        runTimers_nil _ _ _ e, runTimers_nil _ _ _ e]
    | cons t rest =>
      have hsr : QueueSorted rest := by
        unfold QueueSorted at hs ⊢
        rw [e, List.pairwise_cons] at hs; exact hs.2
      have h1b := h1
      have h3b := h3
      rw [e] at h1b h3b
      simp only [fuelFor] at h1b h3b
      have hw := weight_pos t.cb
      by_cases hd : t.due ≤ t1
      · obtain ⟨j, rfl⟩ : ∃ j, f3 = j + 1 := ⟨f3 - 1, by omega⟩
        rw [runTimers_fire k t1 s t rest e hd] at h2 ⊢
        rw [runTimers_fire j t2 s t rest e (by omega)]
        have hq := runCallback_queue t.cb { s with now := t.due, timers := rest } hsr
        have h4 := hq.2
        simp only at h4
        exact ih f2 j _ hq.1 (by omega) (by omega) h2
      · have hi : ∀ u ∈ s.timers, t1 < u.due := by
          intro u hu
          have hs2 : QueueSorted (t :: rest) := by rw [← e]; exact hs
          unfold QueueSorted at hs2
          rw [List.pairwise_cons] at hs2
          rw [e, List.mem_cons] at hu
          rcases hu with rfl | hu
          · omega
          · have := hs2.1 u hu; omega
        rw [runTimers_idle _ _ _ hi] at h2 ⊢
        rw [runTimers_now_irrelevant]
        exact runTimers_fuel f2 f3 t2 s hs h2 h3

/-- Letting `a` and then `b` milliseconds pass is letting `a + b` milliseconds pass. -/
theorem advance_advance (a b : Nat) (s : State) (hs : QueueSorted s.timers) :
    advance b (advance a s) = advance (a + b) s := by
  unfold advance
  rw [runTimers_now, Nat.add_assoc]
  exact runTimers_then _ _ _ _ _ s hs (by omega) (Nat.le_refl _) (Nat.le_refl _)
    (Nat.le_refl _)

/-- Successive waits after startup add up. -/
theorem run_waits (eng : SelectorEngine) (d : Dom) (ws : List Nat) :
    run eng (ws.map Action.wait) (boot d) = pageAt d ws.sum := by
  have key : ∀ (ws : List Nat) (t : Nat),
      run eng (ws.map Action.wait) (pageAt d t) = pageAt d (t + ws.sum) := by
    intro ws
    induction ws with
    | nil => intro t; rfl
    | cons w ws ih =>
      intro t
      show run eng (ws.map Action.wait) (advance w (pageAt d t)) = _
      unfold pageAt
      rw [advance_advance t w (boot d) (boot_queue d)]
      have := ih (t + w)
      unfold pageAt at this
      rw [this, List.sum_cons, Nat.add_assoc]
  have h0 : pageAt d 0 = boot d := by
    unfold pageAt advance
    rw [runTimers_idle, Nat.add_zero]
    intro u hu
    rw [boot_timers] at hu
    split at hu
    · simp only [List.mem_singleton] at hu
      rw [hu, boot_now]; show 0 + 0 < 3000; omega
    · simp at hu
  have := key ws 0
  rw [h0, Nat.zero_add] at this
  exact this

/-! ## Helper lemmas for the claims -/

theorem mem_flashMessages_contains {d : Dom} {m : Nat} (h : m ∈ flashMessages d) :
    d.contains m := by
  unfold flashMessages Dom.selectAll at h
  exact (List.mem_filter.mp h).1

theorem pageAt_early (d : Dom) (t : Nat) (h : t < 3000) :
    (pageAt d t).dom = d ∧ (pageAt d t).log = [] := by
  unfold pageAt
  rw [advance_boot_early d t h]
  exact ⟨boot_dom d, boot_log d⟩

theorem pageAt_mid (d : Dom) {m : Nat} (hm : m ∈ flashMessages d) (t : Nat)
    (h : 3000 ≤ t) (h2 : t < 3400) :
    ((pageAt d t).dom.elems m).style.faded ∧ (pageAt d t).dom.tree = d.tree := by
  have hn : 0 < (flashMessages d).length := List.length_pos_of_mem hm
  unfold pageAt
  rw [advance_boot_mid d t hn h h2]
  exact ⟨afterFade_faded d hm, afterFade_tree d⟩

theorem pageAt_late (d : Dom) {m : Nat} (hm : m ∈ flashMessages d) (t : Nat)
    (h : 3400 ≤ t) : ¬ (pageAt d t).dom.contains m := by
  have hn : 0 < (flashMessages d).length := List.length_pos_of_mem hm
  have := advance_boot_late d t hn h
  simp only at this
  unfold pageAt Dom.contains
  rw [this.2.1]
  intro hc
  exact (mem_ids_removeAll hc).2 hm

/-- Nothing the fader does ever concerns an element outside the startup snapshot. -/
theorem snapshot_frame (eng : SelectorEngine) (d : Dom) (acts : List Action) {n : Nat}
    (hn : n ∉ flashMessages d) :
    (∀ e ∈ (run eng acts (boot d)).log, e.call.faderTarget ≠ some n) ∧
    (∀ u ∈ (run eng acts (boot d)).timers, n ∉ u.cb.targets) ∧
    (∀ ms, (advance ms (run eng acts (boot d))).dom.elems n
        = (run eng acts (boot d)).dom.elems n) ∧
    (∀ ms, (run eng acts (boot d)).dom.contains n →
      (∀ m ∈ flashMessages d, n ∉ (run eng acts (boot d)).dom.tree.subtree m) →
      (advance ms (run eng acts (boot d))).dom.contains n) := by
  have hinv : FaderInv (flashMessages d) (run eng acts (boot d)) :=
    (FaderInv.boot d).run eng acts
  refine ⟨?_, ?_, ?_, ?_⟩
  · intro e he hx
    exact hn (hinv.log_sub e he n hx)
  · intro u hu hx
    exact hn (hinv.timers_sub u hu n hx)
  · intro ms
    exact (runTimers_frame _ _ hinv hn).1
  · intro ms hc hs
    exact (runTimers_frame _ _ hinv hn).2 hs hc

theorem mem_anchors {d : Dom} {n : Nat} :
    n ∈ anchors d ↔ d.contains n ∧ (d.elems n).tag = "a" ∧
      ∃ v, (d.elems n).href = some v ∧ startsWithHash v = true := by
  unfold anchors Dom.selectAll Dom.contains anchorSelector
  rw [List.mem_filter]
  cases h : (d.elems n).href with
  | none => simp
  | some v => simp

theorem querySelector_contains {eng : SelectorEngine} {d : Dom} {sel : String} {t : Nat}
    (h : d.querySelector eng sel = .ok (some t)) : d.contains t := by
  unfold Dom.querySelector at h
  split at h
  · simp at h
  · simp only [Except.ok.injEq] at h
    exact List.mem_of_find?_eq_some h

/-! ## The flash-message fader -/

/-- C1: on a page that holds N ≥ 1 elements of class `flash-message` when the
DOMContentLoaded callback runs, every one of them is in the page at startup and
none of them is in the page once 3000 ms + 400 ms have passed; no timer is
pending then; and it makes no difference in how many steps the time passes. -/
theorem C1_notifications_removed (eng : SelectorEngine) (d : Dom)
    (hN : 1 ≤ (flashMessages d).length) :
    (∀ m ∈ flashMessages d, d.contains m ∧ ¬ (pageAt d (3000 + 400)).dom.contains m) ∧
    (pageAt d (3000 + 400)).timers = [] ∧ (pageAt d (3000 + 400)).now = 3000 + 400 ∧
    (∀ ws : List Nat, ws.sum = 3000 + 400 →
      run eng (ws.map Action.wait) (boot d) = pageAt d (3000 + 400)) := by
  have hl := advance_boot_late d (3000 + 400) hN (Nat.le_refl _)
  simp only at hl
  refine ⟨fun m hm => ⟨mem_flashMessages_contains hm, pageAt_late d hm _ (Nat.le_refl _)⟩,
    hl.2.2.2, hl.1, fun ws hws => ?_⟩
  rw [run_waits, hws]

/-- C1 on the page with two notifications: after 3400 ms both are absent and
the rest of the page is as before. -/
theorem C1_notifications_removed_witness :
    (flashMessages demoDom = [1, 2] ∧
      (pageAt demoDom 3400).dom.tree.ids = [0, 3, 4, 5, 6, 7]) ∧
    ((∀ m ∈ flashMessages demoDom,
        demoDom.contains m ∧ ¬ (pageAt demoDom (3000 + 400)).dom.contains m) ∧
      (pageAt demoDom (3000 + 400)).timers = [] ∧
      (pageAt demoDom (3000 + 400)).now = 3000 + 400 ∧
      (∀ ws : List Nat, ws.sum = 3000 + 400 →
        run idEngine (ws.map Action.wait) (boot demoDom) = pageAt demoDom (3000 + 400))) :=
  ⟨by decide, C1_notifications_removed idEngine demoDom (by decide)⟩

/-- C5: a collected notification that is absent from the page at time `t` was in
the page with the faded inline style at a strictly earlier time; and whatever
else happens on the page, every `remove()` the fader has made on an element was
preceded, at a strictly earlier time, by both style writes of the fade on it. -/
theorem C5_faded_before_removed (eng : SelectorEngine) (d : Dom) (acts : List Action) :
    (∀ m ∈ flashMessages d, ∀ t, ¬ (pageAt d t).dom.contains m →
      ∃ t0, t0 < t ∧ (pageAt d t0).dom.contains m ∧
        ((pageAt d t0).dom.elems m).style.faded) ∧
    (∀ e ∈ (run eng acts (boot d)).log, ∀ m, e.call = .remove m →
      ∃ t0, t0 < e.time ∧ FadedAt (run eng acts (boot d)).log t0 m) := by
  constructor
  · intro m hm t hr
    have hc : d.contains m := mem_flashMessages_contains hm
    have ht : 3400 ≤ t := by
      by_contra hlt
      apply hr
      unfold Dom.contains
      by_cases h3 : t < 3000
      · rw [(pageAt_early d t h3).1]; exact hc
      · rw [(pageAt_mid d hm t (by omega) (by omega)).2]; exact hc
    refine ⟨3000, by omega, ?_, (pageAt_mid d hm 3000 (by omega) (by omega)).1⟩
    unfold Dom.contains
    rw [(pageAt_mid d hm 3000 (by omega) (by omega)).2]; exact hc
  · exact ((FaderInv.boot d).run eng acts).removed

/-- C5 on the demo page: notification 1 is absent at 3400 ms, and the log of
that moment holds its `remove()` made at 3400 ms. -/
theorem C5_faded_before_removed_witness :
    (1 ∈ flashMessages demoDom ∧ ¬ (pageAt demoDom 3400).dom.contains 1 ∧
      (⟨3400, .remove 1⟩ : LogEntry) ∈ (run idEngine [.wait 3400] (boot demoDom)).log) ∧
    (∃ t0, t0 < 3400 ∧ (pageAt demoDom t0).dom.contains 1 ∧
      ((pageAt demoDom t0).dom.elems 1).style.faded) ∧
    (∃ t0, t0 < 3400 ∧ FadedAt (run idEngine [.wait 3400] (boot demoDom)).log t0 1) :=
  ⟨by decide,
   (C5_faded_before_removed idEngine demoDom [.wait 3400]).1 1 (by decide) 3400 (by decide),
   (C5_faded_before_removed idEngine demoDom [.wait 3400]).2 ⟨3400, .remove 1⟩ (by decide) 1 rfl⟩

/-- C6: on a page with no element of class `flash-message` at startup the
callback schedules no timer and leaves document and call log untouched, and
this stays so however much time passes. -/
theorem C6_no_notifications_no_timer (d : Dom) (h0 : (flashMessages d).length = 0) :
    ((boot d).timers = [] ∧ (boot d).log = [] ∧ (boot d).dom = d) ∧
    ∀ t, (pageAt d t).timers = [] ∧ (pageAt d t).log = [] ∧ (pageAt d t).dom = d := by
  have ht : (boot d).timers = [] := by
    rw [boot_timers, if_neg (by omega)]
  refine ⟨⟨ht, boot_log d, boot_dom d⟩, fun t => ?_⟩
  have : pageAt d t = { boot d with now := (boot d).now + t } := by
    unfold pageAt advance
    rw [ht]; rfl
  rw [this]
  exact ⟨ht, boot_log d, boot_dom d⟩

/-- C6 on the page without notifications. -/
theorem C6_no_notifications_no_timer_witness :
    (flashMessages plainDom).length = 0 ∧
    (((boot plainDom).timers = [] ∧ (boot plainDom).log = [] ∧ (boot plainDom).dom = plainDom) ∧
      ∀ t, (pageAt plainDom t).timers = [] ∧ (pageAt plainDom t).log = [] ∧
        (pageAt plainDom t).dom = plainDom) :=
  ⟨by decide, C6_no_notifications_no_timer plainDom (by decide)⟩

/-- C7: when the element is no longer in the page at the moment its removal
timer fires, the callback `() => msg.remove()` leaves the document, the pending
timers and the listeners as they are and raises nothing. -/
theorem C7_remove_absent_noop (s : State) (msg : Nat) (h : ¬ s.dom.contains msg) :
    (runCallback (.removeMsg msg) s).dom = s.dom ∧
    (runCallback (.removeMsg msg) s).uncaught = s.uncaught ∧
    (runCallback (.removeMsg msg) s).timers = s.timers ∧
    (runCallback (.removeMsg msg) s).listeners = s.listeners := by
  refine ⟨?_, rfl, rfl, rfl⟩
  show ({ s.dom with tree := s.dom.tree.remove msg } : Dom) = s.dom
  rw [Forest.remove_of_not_mem h]

/-- C7 on the demo page: other code detaches notification 1 at 3200 ms. -/
theorem C7_remove_absent_noop_witness :
    ¬ (run idEngine [.wait 3200, .other (fun d => d.removeNode 1)] (boot demoDom)).dom.contains 1 ∧
    ((runCallback (.removeMsg 1)
        (run idEngine [.wait 3200, .other (fun d => d.removeNode 1)] (boot demoDom))).dom
      = (run idEngine [.wait 3200, .other (fun d => d.removeNode 1)] (boot demoDom)).dom ∧
     (runCallback (.removeMsg 1)
        (run idEngine [.wait 3200, .other (fun d => d.removeNode 1)] (boot demoDom))).uncaught
      = (run idEngine [.wait 3200, .other (fun d => d.removeNode 1)] (boot demoDom)).uncaught ∧
     (runCallback (.removeMsg 1)
        (run idEngine [.wait 3200, .other (fun d => d.removeNode 1)] (boot demoDom))).timers
      = (run idEngine [.wait 3200, .other (fun d => d.removeNode 1)] (boot demoDom)).timers ∧
     (runCallback (.removeMsg 1)
        (run idEngine [.wait 3200, .other (fun d => d.removeNode 1)] (boot demoDom))).listeners
      = (run idEngine [.wait 3200, .other (fun d => d.removeNode 1)] (boot demoDom)).listeners) :=
  ⟨by decide, C7_remove_absent_noop _ 1 (by decide)⟩

/-- C8 (as amended): an element that is not in the page when the
DOMContentLoaded callback runs is never acted on by the fader, whatever happens
afterwards: no style write and no `remove()` of the fader is ever made on it,
no pending timer targets it, no passage of time changes its attributes or
inline style, and as long as it does not lie inside a notification collected
at startup no passage of time takes it out of the page. -/
theorem C8_snapshot_only (eng : SelectorEngine) (d : Dom) (n : Nat) (hn : ¬ d.contains n)
    (acts : List Action) :
    (∀ e ∈ (run eng acts (boot d)).log, e.call.faderTarget ≠ some n) ∧
    (∀ u ∈ (run eng acts (boot d)).timers, n ∉ u.cb.targets) ∧
    (∀ ms, (advance ms (run eng acts (boot d))).dom.elems n
        = (run eng acts (boot d)).dom.elems n) ∧
    (∀ ms, (run eng acts (boot d)).dom.contains n →
      (∀ m ∈ flashMessages d, n ∉ (run eng acts (boot d)).dom.tree.subtree m) →
      (advance ms (run eng acts (boot d))).dom.contains n) :=
  snapshot_frame eng d acts (fun h => hn (mem_flashMessages_contains h))

/-- C8 (as amended) on the demo page: a notification appended to the body at
1000 ms is still in the page, with its style untouched, 5000 ms later. -/
theorem C8_snapshot_only_witness :
    (¬ demoDom.contains 9 ∧
      (run idEngine [.wait 1000, .other (addNotification 0 9), .wait 5000]
        (boot demoDom)).dom.tree.ids = [0, 3, 4, 5, 6, 7, 9] ∧
      ((run idEngine [.wait 1000, .other (addNotification 0 9), .wait 5000]
        (boot demoDom)).dom.elems 9).style = ⟨"", ""⟩) ∧
    ((∀ e ∈ (run idEngine [.wait 1000, .other (addNotification 0 9)] (boot demoDom)).log,
        e.call.faderTarget ≠ some 9) ∧
     (∀ u ∈ (run idEngine [.wait 1000, .other (addNotification 0 9)] (boot demoDom)).timers,
        9 ∉ u.cb.targets) ∧
     (∀ ms, (advance ms
          (run idEngine [.wait 1000, .other (addNotification 0 9)] (boot demoDom))).dom.elems 9
        = (run idEngine [.wait 1000, .other (addNotification 0 9)] (boot demoDom)).dom.elems 9) ∧
     (∀ ms,
        (run idEngine [.wait 1000, .other (addNotification 0 9)] (boot demoDom)).dom.contains 9 →
        (∀ m ∈ flashMessages demoDom,
          9 ∉ (run idEngine [.wait 1000, .other (addNotification 0 9)]
            (boot demoDom)).dom.tree.subtree m) →
        (advance ms (run idEngine [.wait 1000, .other (addNotification 0 9)]
          (boot demoDom))).dom.contains 9)) :=
  ⟨by decide, C8_snapshot_only idEngine demoDom 9 (by decide) _⟩

/-- C8 as stated fails: a notification that other code appends at 1000 ms inside
the collected notification 1 was not in the page at startup, is in the page
from then on, and is out of the page once the fader has removed notification 1
at 3400 ms. -/
theorem C8_counterexample :
    ¬ demoDom.contains 9 ∧
    flashSelector (run idEngine [.wait 1000, .other (addNotification 1 9)] (boot demoDom)).dom 9
      = true ∧
    (run idEngine [.wait 1000, .other (addNotification 1 9)] (boot demoDom)).dom.contains 9 ∧
    (run idEngine [.wait 1000, .other (addNotification 1 9), .wait 2399]
      (boot demoDom)).dom.contains 9 ∧
    ¬ (run idEngine [.wait 1000, .other (addNotification 1 9), .wait 2400]
      (boot demoDom)).dom.contains 9 := by
  decide

/-- C10: for a notification collected at startup, before 3000 ms the document
and the call log are as at startup; at 3000 ms its inline style is the faded
one; from 3000 ms up to but excluding 3400 ms it is faded and in the page, the
tree being as at startup; from 3400 ms on it is out of the page. -/
theorem C10_fader_schedule (d : Dom) (m : Nat) (hm : m ∈ flashMessages d) (t : Nat) :
    (t < 3000 → (pageAt d t).dom = d ∧ (pageAt d t).log = [] ∧ (pageAt d t).dom.contains m) ∧
    ((pageAt d 3000).dom.elems m).style.faded ∧
    (3000 ≤ t → t < 3400 →
      ((pageAt d t).dom.elems m).style.faded ∧ (pageAt d t).dom.contains m ∧
        (pageAt d t).dom.tree = d.tree) ∧
    (3400 ≤ t → ¬ (pageAt d t).dom.contains m) := by
  have hc : d.contains m := mem_flashMessages_contains hm
  refine ⟨fun h => ?_, (pageAt_mid d hm 3000 (by omega) (by omega)).1, fun h1 h2 => ?_,
    fun h => pageAt_late d hm t h⟩
  · have := pageAt_early d t h
    refine ⟨this.1, this.2, ?_⟩
    rw [this.1]; exact hc
  · have := pageAt_mid d hm t h1 h2
    refine ⟨this.1, ?_, this.2⟩
    unfold Dom.contains
    rw [this.2]; exact hc

/-- C10 on the demo page, notification 2, at 3399 ms. -/
theorem C10_fader_schedule_witness :
    (2 ∈ flashMessages demoDom ∧ ¬ ((pageAt demoDom 2999).dom.elems 2).style.faded) ∧
    ((3399 < 3000 → (pageAt demoDom 3399).dom = demoDom ∧ (pageAt demoDom 3399).log = [] ∧
        (pageAt demoDom 3399).dom.contains 2) ∧
     ((pageAt demoDom 3000).dom.elems 2).style.faded ∧
     (3000 ≤ 3399 → 3399 < 3400 →
       ((pageAt demoDom 3399).dom.elems 2).style.faded ∧ (pageAt demoDom 3399).dom.contains 2 ∧
         (pageAt demoDom 3399).dom.tree = demoDom.tree) ∧
     (3400 ≤ 3399 → ¬ (pageAt demoDom 3399).dom.contains 2)) :=
  ⟨by decide, C10_fader_schedule demoDom 2 (by decide) 3399⟩

/-! ## The smooth-scroll binder -/

theorem filter_eq_of_nodup (l : List Nat) (hl : l.Nodup) (p : Nat) :
    l.filter (fun x => decide (x = p)) = if p ∈ l then [p] else [] := by
  induction l with
  | nil => simp
  | cons a l ih =>
    rw [List.nodup_cons] at hl
    by_cases h : a = p
    · subst h
      have : a ∉ l := hl.1
      simp [List.filter_cons, ih hl.2, this]
    · have h2 : ¬ p = a := fun x => h x.symm
      simp [List.filter_cons, h, ih hl.2, h2]

/-- With one listener per bound element, a click calls the listener of each
bound element on its path, once. -/
theorem fired_eq_filter (s : State) (n : Nat) (hl : s.listeners.Nodup) :
    fired s n = (s.dom.eventPath n).filter (fun p => decide (p ∈ s.listeners)) := by
  unfold fired
  induction s.dom.eventPath n with
  | nil => rfl
  | cons p ps ih =>
    rw [List.flatMap_cons, ih, filter_eq_of_nodup _ hl, List.filter_cons]
    by_cases h : p ∈ s.listeners <;> simp [h]

theorem mem_fired {s : State} {n a : Nat} :
    a ∈ fired s n ↔ a ∈ s.dom.eventPath n ∧ a ∈ s.listeners := by
  unfold fired
  rw [List.mem_flatMap]
  constructor
  · rintro ⟨p, hp, ha⟩
    rw [List.mem_filter] at ha
    have : a = p := by simpa using ha.2
    rw [this]
    exact ⟨hp, this ▸ ha.1⟩
  · rintro ⟨hp, ha⟩
    exact ⟨a, hp, by rw [List.mem_filter]; exact ⟨ha, by simp⟩⟩

theorem Forest.path_head (x : Nat) (f : Forest) :
    f.path x = [] ∨ ∃ ps, f.path x = x :: ps := by
  induction f with
  | nil => exact Or.inl rfl
  | node n c s ihc ihs =>
    simp only [Forest.path]
    by_cases h : n = x
    · rw [if_pos h, h]; exact Or.inr ⟨[], rfl⟩
    · rw [if_neg h]
      rcases ihc with hc | ⟨ps, hc⟩
      · rw [hc]; exact ihs
      · rw [hc]; exact Or.inr ⟨ps ++ [n], rfl⟩

/-- The path of a node is empty exactly when the node is not in the forest. -/
theorem Forest.path_eq_nil_iff (x : Nat) (f : Forest) : f.path x = [] ↔ x ∉ f.ids := by
  induction f with
  | nil => simp [Forest.path, Forest.ids]
  | node n c s ihc ihs =>
    simp only [Forest.path, Forest.ids, List.mem_cons, List.mem_append, not_or]
    by_cases h : n = x
    · rw [if_pos h]
      simp [h]
    · rw [if_neg h]
      have h2 : ¬ x = n := fun e => h e.symm
      cases hc : c.path x with
      | nil =>
        simp only [h2, not_false_eq_true, true_and]
        rw [ihs]
        have := ihc.mp hc
        simp [this]
      | cons p ps =>
        have : x ∈ c.ids := by
          by_contra hx
          rw [ihc.mpr hx] at hc
          exact absurd hc (by simp)
        simp [this]

/-- The target is on its own propagation path. -/
theorem self_mem_eventPath (d : Dom) (n : Nat) : n ∈ d.eventPath n := by
  unfold Dom.eventPath
  rcases Forest.path_head n d.tree with h | ⟨ps, h⟩
  · rw [h]; simp
  · rw [h]; simp

theorem boot_listeners_nodup (d : Dom) (hd : d.tree.ids.Nodup) : (boot d).listeners.Nodup := by
  rw [boot_listeners]
  exact hd.filter _

/-- A click whose path carries the bound element `a`: what the listener of `a`
adds sits in the log and among the reported exceptions, between what the
listeners called before and after it add. -/
theorem click_through (eng : SelectorEngine) (s : State) (n a : Nat)
    (hp : a ∈ s.dom.eventPath n) (ha : a ∈ s.listeners) :
    (click eng n s).defaultPrevented = true ∧
    (∃ pre post, (click eng n s).state.log =
      s.log ++ pre ++ handlerCalls eng s.dom s.now a ++ post) ∧
    (∃ pre post, (click eng n s).state.uncaught =
      s.uncaught ++ pre ++ (handlerError eng s.dom a).toList ++ post) := by
  have hc := click_spec eng n s
  have hf : a ∈ fired s n := mem_fired.mpr ⟨hp, ha⟩
  obtain ⟨l1, l2, hsplit⟩ := List.append_of_mem hf
  refine ⟨?_, ?_, ?_⟩
  · rw [hc.2.2.2.2.2.2, hsplit]; cases l1 <;> rfl
  · refine ⟨l1.flatMap (handlerCalls eng s.dom s.now),
      l2.flatMap (handlerCalls eng s.dom s.now), ?_⟩
    rw [hc.2.2.2.2.1, hsplit]
    simp [List.flatMap_append, List.flatMap_cons, List.append_assoc]
  · refine ⟨l1.filterMap (handlerError eng s.dom), l2.filterMap (handlerError eng s.dom), ?_⟩
    rw [hc.2.2.2.2.2.1, hsplit, List.filterMap_append]
    cases he : handlerError eng s.dom a <;>
      simp [List.filterMap_cons, he, List.append_assoc]

/-- A click whose path carries no bound element but `a`, bound once. -/
theorem click_sole (eng : SelectorEngine) (s : State) (n a : Nat) (hl : s.listeners.Nodup)
    (h : (s.dom.eventPath n).filter (fun p => decide (p ∈ s.listeners)) = [a]) :
    (click eng n s).state.log = s.log ++ handlerCalls eng s.dom s.now a ∧
    (click eng n s).state.uncaught = s.uncaught ++ (handlerError eng s.dom a).toList := by
  have hc := click_spec eng n s
  have hf : fired s n = [a] := by rw [fired_eq_filter s n hl, h]
  rw [hc.2.2.2.2.1, hc.2.2.2.2.2.1, hf]
  constructor
  · simp
  · cases he : handlerError eng s.dom a <;> simp [List.filterMap_cons, he]

/-- A click whose path carries no bound element. -/
theorem click_unbound (eng : SelectorEngine) (s : State) (n : Nat)
    (h : ∀ p ∈ s.dom.eventPath n, p ∉ s.listeners) :
    (click eng n s).defaultPrevented = false ∧ (click eng n s).state = s := by
  have hf : fired s n = [] := by
    cases hfe : fired s n with
    | nil => rfl
    | cons a l =>
      have : a ∈ fired s n := by rw [hfe]; simp
      exact absurd (mem_fired.mp this).2 (h a (mem_fired.mp this).1)
  have hd : dispatch eng (s.dom.eventPath n) ⟨false⟩ s = (⟨false⟩, s) := by
    rw [dispatch_eq]
    unfold fired at hf
    rw [hf]; rfl
  unfold click
  simp only [hd]
  exact ⟨trivial, trivial⟩

/-- C2: at any moment after startup on a well-formed page, take a click on an
element of the page whose path to the root passes through a link bound at
startup (the link itself or something inside it), the href of the link
resolving as a selector to an element. Whenever the listener of the link runs
on this document it sets `defaultPrevented`, calls `preventDefault()` and then
`scrollIntoView({behavior: 'smooth'})` on that element and raises nothing; the
click ends with `defaultPrevented` set, these two calls in the log, and the
document unchanged; the element scrolled to is in the page; and when the link
is the only bound element on the path the click makes these two calls and no
other and reports no exception. -/
theorem C2_smooth_scroll (eng : SelectorEngine) (d : Dom) (hd : d.tree.ids.Nodup)
    (acts : List Action) (s : State) (hs : s = run eng acts (boot d))
    (n a target : Nat) (ha : a ∈ (boot d).listeners) (_hn : s.dom.contains n)
    (hp : a ∈ s.dom.eventPath n)
    (hq : s.dom.querySelector eng (hrefSelector s.dom a) = .ok (some target)) :
    (∀ (e : Event) (s1 : State), s1.dom = s.dom →
      (anchorClick eng a e s1).event.defaultPrevented = true ∧
      (anchorClick eng a e s1).thrown = none ∧
      (anchorClick eng a e s1).state.log = s1.log ++
        [⟨s1.now, .preventDefault⟩, ⟨s1.now, .scrollIntoView target "smooth"⟩]) ∧
    (click eng n s).defaultPrevented = true ∧
    (∃ pre post, (click eng n s).state.log = s.log ++ pre ++
      [⟨s.now, .preventDefault⟩, ⟨s.now, .scrollIntoView target "smooth"⟩] ++ post) ∧
    (click eng n s).state.dom = s.dom ∧ s.dom.contains target ∧
    ((s.dom.eventPath n).filter (fun p => decide (p ∈ (boot d).listeners)) = [a] →
      (click eng n s).state.log = s.log ++
        [⟨s.now, .preventDefault⟩, ⟨s.now, .scrollIntoView target "smooth"⟩] ∧
      (click eng n s).state.uncaught = s.uncaught) := by
  have hl : s.listeners = (boot d).listeners := by rw [hs, run_listeners]
  have hcalls : handlerCalls eng s.dom s.now a =
      [⟨s.now, .preventDefault⟩, ⟨s.now, .scrollIntoView target "smooth"⟩] := by
    unfold handlerCalls; rw [hq]
  have herr : handlerError eng s.dom a = none := by
    unfold handlerError; rw [hq]
  have ht := click_through eng s n a hp (hl ▸ ha)
  refine ⟨?_, ht.1, ?_, (click_spec eng n s).2.1, querySelector_contains hq, ?_⟩
  · intro e s1 h1
    have h := anchorClick_spec eng a e s1
    simp only at h
    rw [h1, hq] at h
    exact ⟨h.1, h.2.2.2.2.2.2.1, h.2.2.2.2.2.2.2⟩
  · rw [← hcalls]; exact ht.2.1
  · intro hsole
    have h := click_sole eng s n a (hl ▸ boot_listeners_nodup d hd) (hl ▸ hsole)
    rw [hcalls, herr] at h
    exact ⟨h.1, by simpa using h.2⟩

/-- C2 on the page with nested elements: a click on the span (2) inside the
link to `#section2` (1) scrolls to the section (3). -/
theorem C2_smooth_scroll_witness :
    (nestedDom.tree.ids.Nodup ∧ 1 ∈ (boot nestedDom).listeners ∧
      (boot nestedDom).dom.contains 2 ∧ 1 ∈ (boot nestedDom).dom.eventPath 2 ∧
      (boot nestedDom).dom.querySelector idEngine (hrefSelector (boot nestedDom).dom 1)
        = .ok (some 3) ∧
      (boot nestedDom).dom.eventPath 2 = [2, 1, 0] ∧
      (click idEngine 2 (boot nestedDom)).state.log =
        [⟨0, .preventDefault⟩, ⟨0, .scrollIntoView 3 "smooth"⟩]) ∧
    ((∀ (e : Event) (s1 : State), s1.dom = (boot nestedDom).dom →
      (anchorClick idEngine 1 e s1).event.defaultPrevented = true ∧
      (anchorClick idEngine 1 e s1).thrown = none ∧
      (anchorClick idEngine 1 e s1).state.log = s1.log ++
        [⟨s1.now, .preventDefault⟩, ⟨s1.now, .scrollIntoView 3 "smooth"⟩]) ∧
    (click idEngine 2 (boot nestedDom)).defaultPrevented = true ∧
    (∃ pre post, (click idEngine 2 (boot nestedDom)).state.log =
      (boot nestedDom).log ++ pre ++
        [⟨(boot nestedDom).now, .preventDefault⟩,
         ⟨(boot nestedDom).now, .scrollIntoView 3 "smooth"⟩] ++ post) ∧
    (click idEngine 2 (boot nestedDom)).state.dom = (boot nestedDom).dom ∧
    (boot nestedDom).dom.contains 3 ∧
    (((boot nestedDom).dom.eventPath 2).filter
        (fun p => decide (p ∈ (boot nestedDom).listeners)) = [1] →
      (click idEngine 2 (boot nestedDom)).state.log = (boot nestedDom).log ++
        [⟨(boot nestedDom).now, .preventDefault⟩,
         ⟨(boot nestedDom).now, .scrollIntoView 3 "smooth"⟩] ∧
      (click idEngine 2 (boot nestedDom)).state.uncaught = (boot nestedDom).uncaught)) :=
  ⟨⟨by decide, by decide, by decide, by decide, rfl, by decide, by decide⟩,
   C2_smooth_scroll idEngine nestedDom (by decide) [] (boot nestedDom) rfl 2 1 3
     (by decide) (by decide) (by decide) rfl⟩

/-- C3 as stated fails. On the demo page the link to `#missing` (5) is bound,
its lookup finds no element, and the click ends with an uncaught TypeError. On
the page with nested elements the link to `#missing` (5) lies inside a bound
link, and a click on it scrolls, through the listener of the enclosing link. -/
theorem C3_counterexample :
    (5 ∈ (boot demoDom).listeners ∧
      (boot demoDom).dom.querySelector idEngine (hrefSelector (boot demoDom).dom 5) = .ok none ∧
      (boot demoDom).uncaught = [] ∧
      (click idEngine 5 (boot demoDom)).state.uncaught = [.typeError]) ∧
    (5 ∈ (boot nestedDom).listeners ∧
      (boot nestedDom).dom.querySelector idEngine (hrefSelector (boot nestedDom).dom 5)
        = .ok none ∧
      (click idEngine 5 (boot nestedDom)).state.log =
        [⟨0, .preventDefault⟩, ⟨0, .preventDefault⟩, ⟨0, .scrollIntoView 3 "smooth"⟩] ∧
      (click idEngine 5 (boot nestedDom)).state.uncaught = [.typeError]) :=
  ⟨⟨by decide, rfl, by decide, by decide⟩, ⟨by decide, rfl, by decide, by decide⟩⟩

/-- C3 (as amended): at any moment after startup on a well-formed page, take a
click on an element of the page whose path to the root passes through a link
bound at startup, the lookup for the href of the link finding no element.
Whenever the listener of the link runs on this document it sets
`defaultPrevented`, calls `preventDefault()` and nothing else, and the
TypeError of calling `scrollIntoView` on `null` escapes it; the click ends with
`defaultPrevented` set, that TypeError among the reported exceptions, and the
document unchanged; and when the link is the only bound element on the path the
click makes the one call `preventDefault()`, so no scroll, and reports exactly
that TypeError. -/
theorem C3_missing_target (eng : SelectorEngine) (d : Dom) (hd : d.tree.ids.Nodup)
    (acts : List Action) (s : State) (hs : s = run eng acts (boot d))
    (n a : Nat) (ha : a ∈ (boot d).listeners) (_hn : s.dom.contains n)
    (hp : a ∈ s.dom.eventPath n)
    (hq : s.dom.querySelector eng (hrefSelector s.dom a) = .ok none) :
    (∀ (e : Event) (s1 : State), s1.dom = s.dom →
      (anchorClick eng a e s1).event.defaultPrevented = true ∧
      (anchorClick eng a e s1).thrown = some .typeError ∧
      (anchorClick eng a e s1).state.log = s1.log ++ [⟨s1.now, .preventDefault⟩]) ∧
    (click eng n s).defaultPrevented = true ∧
    (∃ pre post, (click eng n s).state.uncaught = s.uncaught ++ pre ++ [.typeError] ++ post) ∧
    (click eng n s).state.dom = s.dom ∧
    ((s.dom.eventPath n).filter (fun p => decide (p ∈ (boot d).listeners)) = [a] →
      (click eng n s).state.log = s.log ++ [⟨s.now, .preventDefault⟩] ∧
      (click eng n s).state.uncaught = s.uncaught ++ [.typeError]) := by
  have hl : s.listeners = (boot d).listeners := by rw [hs, run_listeners]
  have hcalls : handlerCalls eng s.dom s.now a = [⟨s.now, .preventDefault⟩] := by
    unfold handlerCalls; rw [hq]
  have herr : handlerError eng s.dom a = some .typeError := by
    unfold handlerError; rw [hq]
  have ht := click_through eng s n a hp (hl ▸ ha)
  refine ⟨?_, ht.1, ?_, (click_spec eng n s).2.1, ?_⟩
  · intro e s1 h1
    have h := anchorClick_spec eng a e s1
    simp only at h
    rw [h1, hq] at h
    exact ⟨h.1, h.2.2.2.2.2.2.1, h.2.2.2.2.2.2.2⟩
  · have h := ht.2.2
    rw [herr] at h
    exact h
  · intro hsole
    have h := click_sole eng s n a (hl ▸ boot_listeners_nodup d hd) (hl ▸ hsole)
    rw [hcalls, herr] at h
    exact h

/-- C3 (as amended) on the demo page, link 5, after 5000 ms. -/
theorem C3_missing_target_witness :
    (demoDom.tree.ids.Nodup ∧ 5 ∈ (boot demoDom).listeners ∧
      (run idEngine [.wait 5000] (boot demoDom)).dom.contains 5 ∧
      5 ∈ (run idEngine [.wait 5000] (boot demoDom)).dom.eventPath 5 ∧
      (run idEngine [.wait 5000] (boot demoDom)).dom.querySelector idEngine
        (hrefSelector (run idEngine [.wait 5000] (boot demoDom)).dom 5) = .ok none ∧
      ((run idEngine [.wait 5000] (boot demoDom)).dom.eventPath 5).filter
        (fun p => decide (p ∈ (boot demoDom).listeners)) = [5]) ∧
    ((∀ (e : Event) (s1 : State), s1.dom = (run idEngine [.wait 5000] (boot demoDom)).dom →
      (anchorClick idEngine 5 e s1).event.defaultPrevented = true ∧
      (anchorClick idEngine 5 e s1).thrown = some .typeError ∧
      (anchorClick idEngine 5 e s1).state.log = s1.log ++ [⟨s1.now, .preventDefault⟩]) ∧
    (click idEngine 5 (run idEngine [.wait 5000] (boot demoDom))).defaultPrevented = true ∧
    (∃ pre post, (click idEngine 5 (run idEngine [.wait 5000] (boot demoDom))).state.uncaught =
      (run idEngine [.wait 5000] (boot demoDom)).uncaught ++ pre ++ [.typeError] ++ post) ∧
    (click idEngine 5 (run idEngine [.wait 5000] (boot demoDom))).state.dom
      = (run idEngine [.wait 5000] (boot demoDom)).dom ∧
    (((run idEngine [.wait 5000] (boot demoDom)).dom.eventPath 5).filter
        (fun p => decide (p ∈ (boot demoDom).listeners)) = [5] →
      (click idEngine 5 (run idEngine [.wait 5000] (boot demoDom))).state.log =
        (run idEngine [.wait 5000] (boot demoDom)).log ++
          [⟨(run idEngine [.wait 5000] (boot demoDom)).now, .preventDefault⟩] ∧
      (click idEngine 5 (run idEngine [.wait 5000] (boot demoDom))).state.uncaught =
        (run idEngine [.wait 5000] (boot demoDom)).uncaught ++ [.typeError])) :=
  ⟨⟨by decide, by decide, by decide, by decide, rfl, by decide⟩,
   C3_missing_target idEngine demoDom (by decide) [.wait 5000] _ rfl 5 5
     (by decide) (by decide) (by decide) rfl⟩

/-- C4 as stated fails. On the demo page the link with href `#` (6) is bound,
`#` is not a well-formed selector, and the click ends with the SyntaxError of
the lookup uncaught. On the page with nested elements the link with href `#`
(6) lies inside a bound link, and a click on it scrolls, through the listener
of the enclosing link. -/
theorem C4_counterexample :
    (6 ∈ (boot demoDom).listeners ∧
      hrefSelector (boot demoDom).dom 6 = "#" ∧
      (boot demoDom).dom.querySelector idEngine "#" = .error .syntaxError ∧
      (boot demoDom).uncaught = [] ∧
      (click idEngine 6 (boot demoDom)).state.uncaught = [.syntaxError]) ∧
    (6 ∈ (boot nestedDom).listeners ∧
      hrefSelector (boot nestedDom).dom 6 = "#" ∧
      (click idEngine 6 (boot nestedDom)).state.log =
        [⟨0, .preventDefault⟩, ⟨0, .preventDefault⟩, ⟨0, .scrollIntoView 3 "smooth"⟩] ∧
      (click idEngine 6 (boot nestedDom)).state.uncaught = [.syntaxError]) :=
  ⟨⟨by decide, by decide, rfl, by decide, by decide⟩,
   ⟨by decide, by decide, by decide, by decide⟩⟩

/-- C4 (as amended): at any moment after startup on a well-formed page, take a
click on an element of the page whose path to the root passes through a link
bound at startup, the href of the link not being a well-formed selector. The
lookup throws a SyntaxError; whenever the listener of the link runs on this
document it sets `defaultPrevented`, calls `preventDefault()` and nothing
else, and the SyntaxError escapes it; the click ends with `defaultPrevented`
set, that SyntaxError among the reported exceptions, and the document
unchanged; and when the link is the only bound element on the path the click
makes the one call `preventDefault()`, so no scroll, and reports exactly that
SyntaxError. -/
theorem C4_malformed_selector (eng : SelectorEngine) (d : Dom) (hd : d.tree.ids.Nodup)
    (acts : List Action) (s : State) (hs : s = run eng acts (boot d))
    (n a : Nat) (ha : a ∈ (boot d).listeners) (_hn : s.dom.contains n)
    (hp : a ∈ s.dom.eventPath n)
    (hq : eng (hrefSelector s.dom a) = none) :
    s.dom.querySelector eng (hrefSelector s.dom a) = .error .syntaxError ∧
    (∀ (e : Event) (s1 : State), s1.dom = s.dom →
      (anchorClick eng a e s1).event.defaultPrevented = true ∧
      (anchorClick eng a e s1).thrown = some .syntaxError ∧
      (anchorClick eng a e s1).state.log = s1.log ++ [⟨s1.now, .preventDefault⟩]) ∧
    (click eng n s).defaultPrevented = true ∧
    (∃ pre post, (click eng n s).state.uncaught =
      s.uncaught ++ pre ++ [.syntaxError] ++ post) ∧
    (click eng n s).state.dom = s.dom ∧
    ((s.dom.eventPath n).filter (fun p => decide (p ∈ (boot d).listeners)) = [a] →
      (click eng n s).state.log = s.log ++ [⟨s.now, .preventDefault⟩] ∧
      (click eng n s).state.uncaught = s.uncaught ++ [.syntaxError]) := by
  have hq2 : s.dom.querySelector eng (hrefSelector s.dom a) = .error .syntaxError := by
    unfold Dom.querySelector; rw [hq]
  have hl : s.listeners = (boot d).listeners := by rw [hs, run_listeners]
  have hcalls : handlerCalls eng s.dom s.now a = [⟨s.now, .preventDefault⟩] := by
    unfold handlerCalls; rw [hq2]
  have herr : handlerError eng s.dom a = some .syntaxError := by
    unfold handlerError; rw [hq2]
  have ht := click_through eng s n a hp (hl ▸ ha)
  refine ⟨hq2, ?_, ht.1, ?_, (click_spec eng n s).2.1, ?_⟩
  · intro e s1 h1
    have h := anchorClick_spec eng a e s1
    simp only at h
    rw [h1, hq2] at h
    exact ⟨h.1, h.2.2.2.2.2.2.1, h.2.2.2.2.2.2.2⟩
  · have h := ht.2.2
    rw [herr] at h
    exact h
  · intro hsole
    have h := click_sole eng s n a (hl ▸ boot_listeners_nodup d hd) (hl ▸ hsole)
    rw [hcalls, herr] at h
    exact h

/-- C4 (as amended) on the demo page, link 6. -/
theorem C4_malformed_selector_witness :
    (demoDom.tree.ids.Nodup ∧ 6 ∈ (boot demoDom).listeners ∧
      (boot demoDom).dom.contains 6 ∧ 6 ∈ (boot demoDom).dom.eventPath 6 ∧
      idEngine (hrefSelector (boot demoDom).dom 6) = none ∧
      ((boot demoDom).dom.eventPath 6).filter
        (fun p => decide (p ∈ (boot demoDom).listeners)) = [6]) ∧
    ((boot demoDom).dom.querySelector idEngine (hrefSelector (boot demoDom).dom 6)
      = .error .syntaxError ∧
    (∀ (e : Event) (s1 : State), s1.dom = (boot demoDom).dom →
      (anchorClick idEngine 6 e s1).event.defaultPrevented = true ∧
      (anchorClick idEngine 6 e s1).thrown = some .syntaxError ∧
      (anchorClick idEngine 6 e s1).state.log = s1.log ++ [⟨s1.now, .preventDefault⟩]) ∧
    (click idEngine 6 (boot demoDom)).defaultPrevented = true ∧
    (∃ pre post, (click idEngine 6 (boot demoDom)).state.uncaught =
      (boot demoDom).uncaught ++ pre ++ [.syntaxError] ++ post) ∧
    (click idEngine 6 (boot demoDom)).state.dom = (boot demoDom).dom ∧
    (((boot demoDom).dom.eventPath 6).filter
        (fun p => decide (p ∈ (boot demoDom).listeners)) = [6] →
      (click idEngine 6 (boot demoDom)).state.log =
        (boot demoDom).log ++ [⟨(boot demoDom).now, .preventDefault⟩] ∧
      (click idEngine 6 (boot demoDom)).state.uncaught =
        (boot demoDom).uncaught ++ [.syntaxError])) :=
  ⟨⟨by decide, by decide, by decide, by decide, rfl, by decide⟩,
   C4_malformed_selector idEngine demoDom (by decide) [] (boot demoDom) rfl 6 6
     (by decide) (by decide) (by decide) rfl⟩

/-- C9 as stated fails: on the page with nested elements the external link (7)
is in the page, its href does not start with `#` and it carries no listener,
yet a click on it ends with `defaultPrevented` set and a scroll to the section,
because it lies inside the bound link 4. -/
theorem C9_counterexample :
    nestedDom.contains 7 ∧ (nestedDom.elems 7).tag = "a" ∧
    (nestedDom.elems 7).href = some "https://example.org/" ∧
    startsWithHash "https://example.org/" = false ∧
    (boot nestedDom).listeners.count 7 = 0 ∧
    (boot nestedDom).dom.eventPath 7 = [7, 4, 0] ∧
    (click idEngine 7 (boot nestedDom)).defaultPrevented = true ∧
    (click idEngine 7 (boot nestedDom)).state.log =
      [⟨0, .preventDefault⟩, ⟨0, .scrollIntoView 3 "smooth"⟩] := by
  decide

/-- C9 (as amended): on a well-formed page, an element carries the click
listener after startup, and then exactly once, if and only if it is an `a`
element in the page at startup whose href value starts with `#`; the listeners
never change afterwards; a click on an element of the page is suppressed if
and only if some element on its path to the root carries the listener; and
when none does, the click changes nothing at all. -/
theorem C9_binding (eng : SelectorEngine) (d : Dom) (hd : d.tree.ids.Nodup) (n : Nat) :
    ((boot d).listeners.count n = 1 ↔
      d.contains n ∧ (d.elems n).tag = "a" ∧
        ∃ v, (d.elems n).href = some v ∧ startsWithHash v = true) ∧
    ((boot d).listeners.count n = 0 ↔
      ¬ (d.contains n ∧ (d.elems n).tag = "a" ∧
        ∃ v, (d.elems n).href = some v ∧ startsWithHash v = true)) ∧
    (∀ acts, (run eng acts (boot d)).listeners = (boot d).listeners) ∧
    (∀ acts, (run eng acts (boot d)).dom.contains n →
      ((click eng n (run eng acts (boot d))).defaultPrevented = true ↔
        ∃ p ∈ (run eng acts (boot d)).dom.eventPath n, p ∈ (boot d).listeners)) ∧
    (∀ acts, (run eng acts (boot d)).dom.contains n →
      (∀ p ∈ (run eng acts (boot d)).dom.eventPath n, p ∉ (boot d).listeners) →
      (click eng n (run eng acts (boot d))).defaultPrevented = false ∧
      (click eng n (run eng acts (boot d))).state = run eng acts (boot d)) := by
  have hnd : (boot d).listeners.Nodup := boot_listeners_nodup d hd
  have hmem : n ∈ (boot d).listeners ↔ d.contains n ∧ (d.elems n).tag = "a" ∧
      ∃ v, (d.elems n).href = some v ∧ startsWithHash v = true := by
    rw [boot_listeners]; exact mem_anchors
  refine ⟨?_, ?_, fun acts => run_listeners eng acts _, ?_, ?_⟩
  · rw [← hmem]
    constructor
    · intro h
      exact List.count_pos_iff.mp (by omega)
    · intro h
      exact List.count_eq_one_of_mem hnd h
  · rw [← hmem]
    exact List.count_eq_zero
  · intro acts _
    have hl := run_listeners eng acts (boot d)
    constructor
    · intro h
      by_contra hne
      have hu := click_unbound eng (run eng acts (boot d)) n (by
        intro p hp hpl
        exact hne ⟨p, hp, hl ▸ hpl⟩)
      rw [hu.1] at h
      exact absurd h (by decide)
    · rintro ⟨p, hp, hpl⟩
      exact (click_through eng (run eng acts (boot d)) n p hp (hl ▸ hpl)).1
  · intro acts _ h
    have hl := run_listeners eng acts (boot d)
    exact click_unbound eng (run eng acts (boot d)) n (fun p hp => hl ▸ h p hp)

/-- C9 (as amended) on the page with nested elements: links 1, 4, 5 and 6 are
bound once each; the external link 8 is not and lies inside no bound link, so a
click on it is left to the browser. -/
theorem C9_binding_witness :
    (nestedDom.tree.ids.Nodup ∧ (boot nestedDom).listeners = [1, 4, 5, 6] ∧
      (run idEngine [] (boot nestedDom)).dom.contains 8 ∧
      (∀ p ∈ (run idEngine [] (boot nestedDom)).dom.eventPath 8,
        p ∉ (boot nestedDom).listeners)) ∧
    ((click idEngine 8 (run idEngine [] (boot nestedDom))).defaultPrevented = false ∧
      (click idEngine 8 (run idEngine [] (boot nestedDom))).state
        = run idEngine [] (boot nestedDom)) :=
  ⟨by decide,
   (C9_binding idEngine nestedDom (by decide) 8).2.2.2.2 [] (by decide) (by decide)⟩

end DearDiary
